import Mathlib

/-!
# Policy validator of the GCP IAM emulator control plane

A shallow embedding of `internal/policy/parser.go` (the data model) and
`internal/policy/validator.go` (`Validate`, `validatePermission`,
`validatePrincipal`), followed by theorems about the validation report.

Modelling decisions.

* A Go `map[string]T` is embedded as the list of its entries in the order in
  which `range` visits them during one run.  Keys of a map are distinct; the
  predicate `Policy.WellFormed` records this.  A second run on the same map
  may visit the entries in another order, which is a permutation of the list.
  A lookup `m[k]` with the comma-ok form is membership of `k` among the keys.
* A Go `string` is a Lean `String`.  Every separator and prefix the validator
  uses is ASCII, so splitting and prefix tests on code points agree with the
  byte-level functions of package `strings` on UTF-8 text.
* A Go `error` result is `Except String Unit`: `.ok ()` is `nil`, and
  `.error msg` carries the text `fmt.Errorf` builds.
* `fmt.Sprintf` is string concatenation; `%d` of a slice index is its decimal
  representation.
* The pointer receiver `*ValidationResult` becomes explicit state passing.
-/

namespace policy

/-! ## Package `strings` -/

namespace strings

/-- Embeds `strings.HasPrefix(s, pre)`. -/
def HasPrefix (s pre : String) : Bool :=
  pre.data.isPrefixOf s.data

/-- Embeds `strings.Contains(s, substr)`: some suffix of `s` starts with `substr`. -/
def Contains (s substr : String) : Bool :=
  s.data.tails.any (fun t => substr.data.isPrefixOf t)

/-- Splits a list of characters at every occurrence of `sep`. -/
def splitChars (sep : Char) : List Char → List (List Char)
  | [] => [[]]
  | c :: cs =>
    if c = sep then [] :: splitChars sep cs
    else
      match splitChars sep cs with
      | [] => [[c]]
      | seg :: segs => (c :: seg) :: segs

/-- Splits a list of characters at the first `n - 1` occurrences of `sep`, the
last piece being the unsplit remainder; no piece at all when `n = 0`. -/
def splitCharsN (sep : Char) : Nat → List Char → List (List Char)
  | 0, _ => []
  | 1, s => [s]
  | _ + 2, [] => [[]]
  | n + 2, c :: cs =>
    if c = sep then [] :: splitCharsN sep (n + 1) cs
    else
      match splitCharsN sep (n + 2) cs with
      | [] => [[c]]
      | seg :: segs => (c :: seg) :: segs

/-- Embeds `strings.Split(s, sep)` for a separator of one character. -/
def Split (s : String) (sep : Char) : List String :=
  (splitChars sep s.data).map String.mk

/-- Embeds `strings.SplitN(s, sep, n)` for a separator of one character and `n ≥ 0`. -/
def SplitN (s : String) (sep : Char) (n : Nat) : List String :=
  (splitCharsN sep n s.data).map String.mk

end strings

/-! ## Data model (`parser.go`) -/

/-- A custom role with permissions. -/
structure Role where
  Permissions : List String
  deriving DecidableEq, Repr

/-- A group with members. -/
structure Group where
  Members : List String
  deriving DecidableEq, Repr

/-- A CEL condition. -/
structure Condition where
  Expression : String
  Title : String
  Description : String
  deriving DecidableEq, Repr

/-- An IAM binding; `Condition = none` is the nil pointer. -/
structure Binding where
  Role : String
  Members : List String
  Condition : Option Condition
  deriving DecidableEq, Repr

/-- A project with IAM bindings. -/
structure Project where
  Bindings : List Binding
  deriving DecidableEq, Repr

/-- The `policy.yaml` structure; each map is the list of its entries in `range` order. -/
structure Policy where
  Roles : List (String × Role)
  Groups : List (String × Group)
  Projects : List (String × Project)
  deriving DecidableEq, Repr

/-- The keys of each of the three maps are distinct, as in every Go map. -/
def Policy.WellFormed (p : Policy) : Prop :=
  (p.Roles.map Prod.fst).Nodup ∧ (p.Groups.map Prod.fst).Nodup ∧
    (p.Projects.map Prod.fst).Nodup

/-- The comma-ok lookup `_, exists := m[k]`. -/
def hasKey {α : Type} (m : List (String × α)) (k : String) : Bool :=
  (m.map Prod.fst).contains k

/-! ## Validator (`validator.go`) -/

/-- Policy validation results. -/
structure ValidationResult where
  Valid : Bool
  Errors : List String
  deriving DecidableEq, Repr

/-- Embeds `(*ValidationResult).addError`. -/
def ValidationResult.addError (r : ValidationResult) (msg : String) : ValidationResult :=
  { Valid := false, Errors := r.Errors ++ [msg] }

/-- Embeds `(*ValidationResult).addWarning`. -/
def ValidationResult.addWarning (r : ValidationResult) (msg : String) : ValidationResult :=
  { r with Errors := r.Errors ++ ["WARNING: " ++ msg] }

/-- Embeds `validatePermission`. -/
def validatePermission (perm : String) : Except String Unit :=
  let parts := strings.Split perm '.'
  if parts.length < 3 then
    .error ("invalid permission format: " ++ perm ++ " (expected service.resource.verb)")
  else
    let service := parts.headD ""
    if service ≠ "secretmanager" ∧ service ≠ "cloudkms" then
      .error ("unknown service in permission: " ++ service ++
        " (expected secretmanager or cloudkms)")
    else
      .ok ()

/-- Embeds `validatePrincipal`. -/
def validatePrincipal (principal : String) (policy : Policy) : Except String Unit :=
  if principal = "allUsers" ∨ principal = "allAuthenticatedUsers" then
    .ok ()
  else
    match strings.SplitN principal ':' 2 with
    | [principalType, identifier] =>
      if principalType = "user" ∨ principalType = "serviceAccount" then
        if !strings.Contains identifier "@" then
          .error ("invalid " ++ principalType ++ ": " ++ identifier ++
            " (expected email format)")
        else
          .ok ()
      else if principalType = "group" then
        if !hasKey policy.Groups identifier then
          .error ("undefined group: " ++ identifier)
        else
          .ok ()
      else
        .error ("unknown principal type: " ++ principalType ++
          " (expected user, serviceAccount, or group)")
    | _ =>
      .error ("invalid principal format: " ++ principal ++ " (expected type:identifier)")

/-- The loop `for _, perm := range role.Permissions` of `Validate`. -/
def checkPermissions (roleName : String) :
    List String → ValidationResult → ValidationResult
  | [], result => result
  | perm :: perms, result =>
    match validatePermission perm with
    | .error err =>
      checkPermissions roleName perms (result.addError ("Role " ++ roleName ++ ": " ++ err))
    | .ok _ => checkPermissions roleName perms result

/-- The body of the loop `for roleName, role := range policy.Roles` of `Validate`. -/
def checkRole (roleName : String) (role : Role) (result : ValidationResult) :
    ValidationResult :=
  let result :=
    if !strings.HasPrefix roleName "roles/" then
      result.addError ("Role name must start with 'roles/': " ++ roleName)
    else result
  let result :=
    if role.Permissions.length = 0 then
      result.addWarning ("Role " ++ roleName ++ " has no permissions")
    else result
  checkPermissions roleName role.Permissions result

/-- The loop `for roleName, role := range policy.Roles` of `Validate`. -/
def checkRoles : List (String × Role) → ValidationResult → ValidationResult
  | [], result => result
  | (roleName, role) :: rest, result => checkRoles rest (checkRole roleName role result)

/-- The text `Project %s binding %d: ` that starts every finding about a binding. -/
def bindingPrefix (projectName : String) (i : Nat) : String :=
  "Project " ++ projectName ++ " binding " ++ toString i ++ ": "

/-- The loop `for _, member := range binding.Members` of `Validate`. -/
def checkMembers (policy : Policy) (projectName : String) (i : Nat) :
    List String → ValidationResult → ValidationResult
  | [], result => result
  | member :: members, result =>
    match validatePrincipal member policy with
    | .error err =>
      checkMembers policy projectName i members
        (result.addError (bindingPrefix projectName i ++ err))
    | .ok _ => checkMembers policy projectName i members result

/-- The body of the loop `for i, binding := range project.Bindings` of `Validate`. -/
def checkBinding (policy : Policy) (projectName : String) (i : Nat) (binding : Binding)
    (result : ValidationResult) : ValidationResult :=
  let result :=
    if !strings.HasPrefix binding.Role "roles/" then
      result.addError (bindingPrefix projectName i ++ "role must start with 'roles/'")
    else result
  let result :=
    if strings.HasPrefix binding.Role "roles/custom." then
      if !hasKey policy.Roles binding.Role then
        result.addError (bindingPrefix projectName i ++ "undefined role " ++ binding.Role)
      else result
    else result
  let result :=
    if binding.Members.length = 0 then
      result.addError (bindingPrefix projectName i ++ "no members specified")
    else result
  let result := checkMembers policy projectName i binding.Members result
  match binding.Condition with
  | some condition =>
    if condition.Expression = "" then
      result.addError (bindingPrefix projectName i ++ "condition has empty expression")
    else result
  | none => result

/-- The loop `for i, binding := range project.Bindings`, started at index `i`. -/
def checkBindings (policy : Policy) (projectName : String) :
    Nat → List Binding → ValidationResult → ValidationResult
  | _, [], result => result
  | i, binding :: rest, result =>
    checkBindings policy projectName (i + 1) rest
      (checkBinding policy projectName i binding result)

/-- The body of the loop `for projectName, project := range policy.Projects`. -/
def checkProject (policy : Policy) (projectName : String) (project : Project)
    (result : ValidationResult) : ValidationResult :=
  let result :=
    if project.Bindings.length = 0 then
      result.addWarning ("Project " ++ projectName ++ " has no bindings")
    else result
  checkBindings policy projectName 0 project.Bindings result

/-- The loop `for projectName, project := range policy.Projects` of `Validate`. -/
def checkProjects (policy : Policy) :
    List (String × Project) → ValidationResult → ValidationResult
  | [], result => result
  | (projectName, project) :: rest, result =>
    checkProjects policy rest (checkProject policy projectName project result)

/-- Embeds `Validate`. -/
def Validate (policy : Policy) : ValidationResult :=
  let result : ValidationResult := { Valid := true, Errors := [] }
  let result :=
    if policy.Roles.length = 0 then result.addWarning "No roles defined" else result
  let result := checkRoles policy.Roles result
  let result :=
    if policy.Projects.length = 0 then result.addWarning "No projects defined" else result
  checkProjects policy policy.Projects result

/-! ## The report as a concatenation of blocks

The definitions below describe the report the way the specification does: a
sequence of findings, grouped per role, per project and per binding, and a
verdict that is the conjunction of the error-level checks.  The lemmas that
follow relate them to the state-passing code above. -/

/-- The finding for one permission of a role: one error when `validatePermission`
rejects it, nothing otherwise. -/
def permissionFindings (roleName perm : String) : List String :=
  match validatePermission perm with
  | .error err => ["Role " ++ roleName ++ ": " ++ err]
  | .ok _ => []

/-- The findings for one entry of the Roles map, in the order they are reported. -/
def roleFindings (roleName : String) (role : Role) : List String :=
  (if strings.HasPrefix roleName "roles/" then []
    else ["Role name must start with 'roles/': " ++ roleName]) ++
  (if role.Permissions = [] then ["WARNING: Role " ++ roleName ++ " has no permissions"]
    else []) ++
  role.Permissions.flatMap (permissionFindings roleName)

/-- The findings of the roles section. -/
def rolesSection (p : Policy) : List String :=
  if p.Roles = [] then ["WARNING: No roles defined"]
  else p.Roles.flatMap (fun e => roleFindings e.1 e.2)

/-- The finding for one member of a binding: one error when `validatePrincipal`
rejects it, nothing otherwise. -/
def memberFindings (p : Policy) (projectName : String) (i : Nat) (member : String) :
    List String :=
  match validatePrincipal member p with
  | .error err => [bindingPrefix projectName i ++ err]
  | .ok _ => []

/-- The role-prefix finding of a binding. -/
def rolePrefixFinding (projectName : String) (i : Nat) (b : Binding) : List String :=
  if strings.HasPrefix b.Role "roles/" then []
  else [bindingPrefix projectName i ++ "role must start with 'roles/'"]

/-- The undefined-custom-role finding of a binding. -/
def undefinedRoleFinding (p : Policy) (projectName : String) (i : Nat) (b : Binding) :
    List String :=
  if strings.HasPrefix b.Role "roles/custom." ∧ hasKey p.Roles b.Role = false then
    [bindingPrefix projectName i ++ "undefined role " ++ b.Role]
  else []

/-- The no-members finding of a binding. -/
def noMembersFinding (projectName : String) (i : Nat) (b : Binding) : List String :=
  if b.Members = [] then [bindingPrefix projectName i ++ "no members specified"] else []

/-- The empty-condition finding of a binding. -/
def conditionFinding (projectName : String) (i : Nat) (b : Binding) : List String :=
  match b.Condition with
  | some c =>
    if c.Expression = "" then [bindingPrefix projectName i ++ "condition has empty expression"]
    else []
  | none => []

/-- The findings for the binding at index `i` of a project, in the order the
specification fixes. -/
def bindingFindings (p : Policy) (projectName : String) (i : Nat) (b : Binding) :
    List String :=
  rolePrefixFinding projectName i b ++ undefinedRoleFinding p projectName i b ++
    noMembersFinding projectName i b ++
    b.Members.flatMap (memberFindings p projectName i) ++
    conditionFinding projectName i b

/-- The findings for one entry of the Projects map: bindings in stored order,
each reported under its position. -/
def projectFindings (p : Policy) (projectName : String) (project : Project) : List String :=
  if project.Bindings = [] then ["WARNING: Project " ++ projectName ++ " has no bindings"]
  else project.Bindings.enum.flatMap (fun ib => bindingFindings p projectName ib.1 ib.2)

/-- The findings of the projects section. -/
def projectsSection (p : Policy) : List String :=
  if p.Projects = [] then ["WARNING: No projects defined"]
  else p.Projects.flatMap (fun e => projectFindings p e.1 e.2)

/-- No error-level check applies to the permission. -/
def permissionOk (perm : String) : Bool :=
  match validatePermission perm with
  | .error _ => false
  | .ok _ => true

/-- No error-level check applies to the principal. -/
def principalOk (p : Policy) (member : String) : Bool :=
  match validatePrincipal member p with
  | .error _ => false
  | .ok _ => true

/-- No error-level check applies to the entry of the Roles map. -/
def roleOk (roleName : String) (role : Role) : Bool :=
  strings.HasPrefix roleName "roles/" && role.Permissions.all permissionOk

/-- No error-level check applies to the binding. -/
def bindingOk (p : Policy) (b : Binding) : Bool :=
  strings.HasPrefix b.Role "roles/" &&
  (!strings.HasPrefix b.Role "roles/custom." || hasKey p.Roles b.Role) &&
  !b.Members.isEmpty &&
  b.Members.all (principalOk p) &&
  (match b.Condition with
    | some c => decide (c.Expression ≠ "")
    | none => true)

/-- No error-level check applies anywhere in the policy. -/
def policyOk (p : Policy) : Bool :=
  p.Roles.all (fun e => roleOk e.1 e.2) &&
  p.Projects.all (fun e => e.2.Bindings.all (bindingOk p))

/-- A finding that `addWarning` formats. -/
def isWarning (finding : String) : Bool :=
  strings.HasPrefix finding "WARNING: "

/-- The findings of a report that are not warnings. -/
def errorFindings (findings : List String) : List String :=
  findings.filter (fun f => !isWarning f)

/-- The principals the specification accepts: the two literal tokens, or
`type:identifier` where `type` is the text before the first colon. -/
def AcceptedPrincipal (p : Policy) (s : String) : Prop :=
  s = "allUsers" ∨ s = "allAuthenticatedUsers" ∨
  ∃ ty ident : String, s = ty ++ ":" ++ ident ∧ ':' ∉ ty.data ∧
    (((ty = "user" ∨ ty = "serviceAccount") ∧ '@' ∈ ident.data) ∨
      (ty = "group" ∧ ident ∈ p.Groups.map Prod.fst))

/-- Equality of `error` results is decidable. -/
instance : DecidableEq (Except String Unit)
  | .ok (), .ok () => isTrue rfl
  | .error a, .error b =>
    if h : a = b then isTrue (by rw [h]) else isFalse (fun h2 => h (by cases h2; rfl))
  | .ok (), .error _ => isFalse (fun h => by cases h)
  | .error _, .ok () => isFalse (fun h => by cases h)

/-- The findings reported before those of the binding that follows `bs₁` in the
project `projectName`, itself preceded by the projects `ps₁`. -/
def findingsBefore (p : Policy) (ps₁ : List (String × Project)) (projectName : String)
    (bs₁ : List Binding) : List String :=
  rolesSection p ++ ps₁.flatMap (fun e => projectFindings p e.1 e.2) ++
    bs₁.enum.flatMap (fun ib => bindingFindings p projectName ib.1 ib.2)

/-- The findings reported after those of a binding of the project `projectName`:
the bindings `bs₂` that follow it, the first of them at index `start`, and then
the projects `ps₂`. -/
def findingsAfter (p : Policy) (projectName : String) (start : Nat) (bs₂ : List Binding)
    (ps₂ : List (String × Project)) : List String :=
  (bs₂.enumFrom start).flatMap (fun ib => bindingFindings p projectName ib.1 ib.2) ++
    ps₂.flatMap (fun e => projectFindings p e.1 e.2)

/-- A binding with an undefined custom role, an undefined group, a malformed user
and a condition whose expression is empty. -/
def sampleBinding : Binding :=
  { Role := "roles/custom.x",
    Members := ["group:nonexistent", "allUsers", "user:a"],
    Condition := some { Expression := "", Title := "", Description := "" } }

/-- A policy with one role whose key lacks the prefix, and one project holding
`sampleBinding`. -/
def samplePolicy : Policy :=
  { Roles := [("custom.dev", { Permissions := ["secretmanager.secrets.get", "x.y"] })],
    Groups := [],
    Projects := [("p", { Bindings := [sampleBinding] })] }

/-- Two enumerations of one policy: each of the three maps holds the same
entries, which `range` may visit in a different order. -/
def SameMaps (p q : Policy) : Prop :=
  p.Roles.Perm q.Roles ∧ p.Groups.Perm q.Groups ∧ p.Projects.Perm q.Projects

/-- A policy with two roles that lack the prefix, visited `dev` first. -/
def twoRolesDevOps : Policy :=
  { Roles := [("dev", { Permissions := ["cloudkms.keys.get"] }),
              ("ops", { Permissions := ["cloudkms.keys.get"] })],
    Groups := [],
    Projects := [] }

/-- The policy `twoRolesDevOps`, its Roles map visited `ops` first. -/
def twoRolesOpsDev : Policy :=
  { Roles := [("ops", { Permissions := ["cloudkms.keys.get"] }),
              ("dev", { Permissions := ["cloudkms.keys.get"] })],
    Groups := [],
    Projects := [] }

/-- A binding to the custom role `roles/custom.missing`. -/
def missingRoleBinding : Binding :=
  { Role := "roles/custom.missing", Members := ["user:dev@example.com"], Condition := none }

/-- A policy without roles whose project `demo` binds `roles/custom.missing`. -/
def missingRolePolicy : Policy :=
  { Roles := [], Groups := [], Projects := [("demo", { Bindings := [missingRoleBinding] })] }

/-- A policy whose only role lists the two-segment permission `unknownsvc.x`. -/
def unknownServicePolicy : Policy :=
  { Roles := [("roles/custom.dev", { Permissions := ["unknownsvc.x"] })],
    Groups := [],
    Projects := [] }

/-- The policy `p` with its Projects map replaced by `ps₁`, then the project
`projectName` holding the bindings `bs₁`, `b`, `bs₂`, then `ps₂`. -/
def setBinding (p : Policy) (ps₁ : List (String × Project)) (projectName : String)
    (bs₁ : List Binding) (b : Binding) (bs₂ : List Binding)
    (ps₂ : List (String × Project)) : Policy :=
  { p with Projects := ps₁ ++ (projectName, { Bindings := bs₁ ++ b :: bs₂ }) :: ps₂ }

/-! ## Template generator (`internal/cli/policy.go`) -/

/-- Embeds `createPolicyFromTemplate`; the entries of each map literal are
listed in the order of the source text. -/
def cli.createPolicyFromTemplate (template : String) : Policy :=
  if template = "advanced" then
    { Roles := [
        ("roles/custom.developer",
          { Permissions := [
              "secretmanager.secrets.create",
              "secretmanager.secrets.get",
              "secretmanager.secrets.update",
              "secretmanager.versions.add",
              "secretmanager.versions.access",
              "cloudkms.keyRings.create",
              "cloudkms.cryptoKeys.create",
              "cloudkms.cryptoKeys.encrypt",
              "cloudkms.cryptoKeys.decrypt"] }),
        ("roles/custom.ciRunner",
          { Permissions := [
              "secretmanager.secrets.get",
              "secretmanager.versions.access",
              "cloudkms.cryptoKeys.encrypt"] }),
        ("roles/custom.readonly",
          { Permissions := [
              "secretmanager.secrets.get",
              "cloudkms.keyRings.get",
              "cloudkms.cryptoKeys.get"] })],
      Groups := [
        ("developers",
          { Members := ["user:alice@example.com", "user:bob@example.com"] }),
        ("operations", { Members := ["user:ops@example.com"] })],
      Projects := [
        ("test-project",
          { Bindings := [
              { Role := "roles/custom.developer",
                Members := ["group:developers"],
                Condition := none },
              { Role := "roles/custom.ciRunner",
                Members := ["serviceAccount:ci@test-project.iam.gserviceaccount.com"],
                Condition := some
                  { Expression :=
                      "resource.name.startsWith(\"projects/test-project/secrets/prod-\")",
                    Title := "CI limited to production secrets",
                    Description := "" } },
              { Role := "roles/custom.readonly",
                Members := ["group:operations"],
                Condition := none }] })] }
  else if template = "ci" then
    { Roles := [
        ("roles/custom.ciRunner",
          { Permissions := ["secretmanager.secrets.get", "secretmanager.versions.access"] })],
      Groups := [
        ("ci-accounts",
          { Members := [
              "serviceAccount:ci@test-project.iam.gserviceaccount.com",
              "serviceAccount:github-actions@test-project.iam.gserviceaccount.com"] })],
      Projects := [
        ("test-project",
          { Bindings := [
              { Role := "roles/custom.ciRunner",
                Members := ["group:ci-accounts"],
                Condition := none }] })] }
  else
    { Roles := [
        ("roles/custom.developer",
          { Permissions := [
              "secretmanager.secrets.create",
              "secretmanager.secrets.get",
              "secretmanager.versions.add",
              "secretmanager.versions.access",
              "cloudkms.cryptoKeys.encrypt",
              "cloudkms.cryptoKeys.decrypt"] })],
      Groups := [("developers", { Members := ["user:alice@example.com"] })],
      Projects := [
        ("test-project",
          { Bindings := [
              { Role := "roles/custom.developer",
                Members := ["group:developers"],
                Condition := none }] })] }

/-- A policy with two roles and two projects that all produce findings. -/
def twoByTwo : Policy :=
  { Roles := [("dev", { Permissions := [] }), ("roles/ops", { Permissions := ["x.y"] })],
    Groups := [("team", { Members := [] })],
    Projects := [("alpha", { Bindings := [] }),
                 ("beta", { Bindings := [{ Role := "viewer", Members := ["group:team"],
                                           Condition := none }] })] }

/-- The policy `twoByTwo`, its Roles and Projects maps visited in the other order. -/
def twoByTwoSwapped : Policy :=
  { Roles := [("roles/ops", { Permissions := ["x.y"] }), ("dev", { Permissions := [] })],
    Groups := [("team", { Members := [] })],
    Projects := [("beta", { Bindings := [{ Role := "viewer", Members := ["group:team"],
                                           Condition := none }] }),
                 ("alpha", { Bindings := [] })] }

/-- A policy whose group `developers` has one well-formed member. -/
def groupPolicy : Policy :=
  { Roles := [("roles/custom.developer", { Permissions := ["secretmanager.secrets.get"] })],
    Groups := [("developers", { Members := ["user:alice@example.com"] })],
    Projects := [("test-project",
      { Bindings := [{ Role := "roles/custom.developer", Members := ["group:developers"],
                       Condition := none }] })] }

/-- The policy `groupPolicy` with the members of `developers` replaced by a
malformed principal, a reference to an undefined group and a reference to the
group itself. -/
def groupPolicyBadMembers : Policy :=
  { groupPolicy with
    Groups := [("developers",
      { Members := ["not a principal", "group:ghost", "group:developers"] })] }

/-- A policy with the group `team` and two roles that lack the prefix, visited
`dev` first. -/
def groupTeamDevOps : Policy :=
  { Roles := [("dev", { Permissions := ["cloudkms.keys.get"] }),
              ("ops", { Permissions := ["cloudkms.keys.get"] })],
    Groups := [("team", { Members := ["user:alice@example.com"] })],
    Projects := [("demo",
      { Bindings := [{ Role := "roles/viewer", Members := ["group:team"],
                       Condition := none }] })] }

/-- The policy `groupTeamDevOps` with other members in the group `team`, its
Roles map visited `ops` first. -/
def groupTeamOpsDev : Policy :=
  { Roles := [("ops", { Permissions := ["cloudkms.keys.get"] }),
              ("dev", { Permissions := ["cloudkms.keys.get"] })],
    Groups := [("team", { Members := ["not a principal", "group:ghost"] })],
    Projects := [("demo",
      { Bindings := [{ Role := "roles/viewer", Members := ["group:team"],
                       Condition := none }] })] }

/-! ## The code computes the blocks -/

theorem checkPermissions_eq (roleName : String) (perms : List String)
    (r : ValidationResult) :
    checkPermissions roleName perms r =
      { Valid := r.Valid && perms.all permissionOk,
        Errors := r.Errors ++ perms.flatMap (permissionFindings roleName) } := by
  induction perms generalizing r with
  | nil => simp [checkPermissions]
  | cons perm perms ih =>
    unfold checkPermissions
    cases h : validatePermission perm <;>
      simp [h, ih, permissionOk, permissionFindings, ValidationResult.addError]

theorem checkRole_eq (roleName : String) (role : Role) (r : ValidationResult) :
    checkRole roleName role r =
      { Valid := r.Valid && roleOk roleName role,
        Errors := r.Errors ++ roleFindings roleName role } := by
  unfold checkRole
  simp only [checkPermissions_eq, roleOk, roleFindings]
  by_cases h1 : strings.HasPrefix roleName "roles/" = true <;>
    by_cases h2 : role.Permissions = [] <;>
    simp [h1, h2, ValidationResult.addError, ValidationResult.addWarning, String.ext_iff]

theorem checkRoles_eq (roles : List (String × Role)) (r : ValidationResult) :
    checkRoles roles r =
      { Valid := r.Valid && roles.all (fun e => roleOk e.1 e.2),
        Errors := r.Errors ++ roles.flatMap (fun e => roleFindings e.1 e.2) } := by
  induction roles generalizing r with
  | nil => simp [checkRoles]
  | cons e roles ih =>
    obtain ⟨roleName, role⟩ := e
    simp [checkRoles, ih, checkRole_eq, Bool.and_assoc]

theorem checkMembers_eq (p : Policy) (projectName : String) (i : Nat)
    (members : List String) (r : ValidationResult) :
    checkMembers p projectName i members r =
      { Valid := r.Valid && members.all (principalOk p),
        Errors := r.Errors ++ members.flatMap (memberFindings p projectName i) } := by
  induction members generalizing r with
  | nil => simp [checkMembers]
  | cons m members ih =>
    unfold checkMembers
    cases h : validatePrincipal m p <;>
      simp [h, ih, principalOk, memberFindings, ValidationResult.addError]

theorem checkBinding_eq (p : Policy) (projectName : String) (i : Nat) (b : Binding)
    (r : ValidationResult) :
    checkBinding p projectName i b r =
      { Valid := r.Valid && bindingOk p b,
        Errors := r.Errors ++ bindingFindings p projectName i b } := by
  unfold checkBinding
  simp only [checkMembers_eq, bindingOk, bindingFindings, rolePrefixFinding,
    undefinedRoleFinding, noMembersFinding, conditionFinding]
  have hE : b.Members.isEmpty = decide (b.Members = []) := by
    cases b.Members <;> simp
  rw [hE]
  rcases hc : b.Condition with _ | c
  · by_cases h1 : strings.HasPrefix b.Role "roles/" = true <;>
      by_cases h2 : strings.HasPrefix b.Role "roles/custom." = true <;>
      by_cases h3 : hasKey p.Roles b.Role = true <;>
      by_cases h4 : b.Members = [] <;>
      simp [h1, h2, h3, h4, ValidationResult.addError]
  · by_cases h5 : c.Expression = "" <;>
      by_cases h1 : strings.HasPrefix b.Role "roles/" = true <;>
      by_cases h2 : strings.HasPrefix b.Role "roles/custom." = true <;>
      by_cases h3 : hasKey p.Roles b.Role = true <;>
      by_cases h4 : b.Members = [] <;>
      simp [h1, h2, h3, h4, h5, ValidationResult.addError]

theorem checkBindings_eq (p : Policy) (projectName : String) (i : Nat)
    (bs : List Binding) (r : ValidationResult) :
    checkBindings p projectName i bs r =
      { Valid := r.Valid && bs.all (bindingOk p),
        Errors := r.Errors ++
          (bs.enumFrom i).flatMap (fun ib => bindingFindings p projectName ib.1 ib.2) } := by
  induction bs generalizing i r with
  | nil => simp [checkBindings]
  | cons b bs ih =>
    simp [checkBindings, ih, checkBinding_eq, List.enumFrom_cons, Bool.and_assoc]

theorem checkProject_eq (p : Policy) (projectName : String) (project : Project)
    (r : ValidationResult) :
    checkProject p projectName project r =
      { Valid := r.Valid && project.Bindings.all (bindingOk p),
        Errors := r.Errors ++ projectFindings p projectName project } := by
  unfold checkProject
  simp only [checkBindings_eq, projectFindings, List.enum]
  by_cases h : project.Bindings = [] <;>
    simp [h, ValidationResult.addWarning, String.ext_iff]

theorem checkProjects_eq (p : Policy) (projects : List (String × Project))
    (r : ValidationResult) :
    checkProjects p projects r =
      { Valid := r.Valid && projects.all (fun e => e.2.Bindings.all (bindingOk p)),
        Errors := r.Errors ++ projects.flatMap (fun e => projectFindings p e.1 e.2) } := by
  induction projects generalizing r with
  | nil => simp [checkProjects]
  | cons e projects ih =>
    obtain ⟨projectName, project⟩ := e
    simp [checkProjects, ih, checkProject_eq, Bool.and_assoc]

/-- The report of `Validate`, as a verdict and a concatenation of two sections. -/
theorem Validate_eq (p : Policy) :
    Validate p = { Valid := policyOk p, Errors := rolesSection p ++ projectsSection p } := by
  unfold Validate
  simp only [checkProjects_eq, checkRoles_eq, policyOk, rolesSection, projectsSection]
  by_cases h1 : p.Roles = [] <;> by_cases h2 : p.Projects = [] <;>
    simp [h1, h2, ValidationResult.addWarning, String.ext_iff]

/-! ## Package `strings`: splitting -/

theorem splitChars_ne_nil (sep : Char) (s : List Char) : strings.splitChars sep s ≠ [] := by
  induction s with
  | nil => simp [strings.splitChars]
  | cons c cs ih =>
    unfold strings.splitChars
    split
    · simp
    · split <;> simp

theorem splitChars_length (sep : Char) (s : List Char) :
    (strings.splitChars sep s).length = s.count sep + 1 := by
  induction s with
  | nil => simp [strings.splitChars]
  | cons c cs ih =>
    unfold strings.splitChars
    by_cases h : c = sep
    · subst h; simp [ih]
    · rw [if_neg h]
      have := splitChars_ne_nil sep cs
      split
      · contradiction
      · rename_i seg segs heq
        rw [heq] at ih
        simp [List.count_cons, h] at ih ⊢
        omega

theorem splitCharsN_two_of_not_mem (sep : Char) (s : List Char) (h : sep ∉ s) :
    strings.splitCharsN sep 2 s = [s] := by
  induction s with
  | nil => simp [strings.splitCharsN]
  | cons c cs ih =>
    simp only [List.mem_cons, not_or] at h
    have hc : c ≠ sep := fun e => h.1 e.symm
    simp [strings.splitCharsN, hc, ih h.2]

theorem splitCharsN_two_append (sep : Char) (a b : List Char) (h : sep ∉ a) :
    strings.splitCharsN sep 2 (a ++ sep :: b) = [a, b] := by
  induction a with
  | nil => simp [strings.splitCharsN]
  | cons c cs ih =>
    simp only [List.mem_cons, not_or] at h
    have hc : c ≠ sep := fun e => h.1 e.symm
    simp [strings.splitCharsN, hc, ih h.2]

theorem exists_first_split (sep : Char) (s : List Char) (h : sep ∈ s) :
    ∃ a b, s = a ++ sep :: b ∧ sep ∉ a := by
  induction s with
  | nil => simp at h
  | cons c cs ih =>
    by_cases hc : c = sep
    · exact ⟨[], cs, by simp [hc], by simp⟩
    · have : sep ∈ cs := by
        rcases List.mem_cons.1 h with h | h
        · exact absurd h.symm hc
        · exact h
      obtain ⟨a, b, e, hn⟩ := ih this
      refine ⟨c :: a, b, by simp [e], ?_⟩
      simp only [List.mem_cons, not_or]
      exact ⟨fun e => hc e.symm, hn⟩

/-! ## `validatePrincipal` and `validatePermission` -/

theorem Contains_at (s : String) : strings.Contains s "@" = true ↔ '@' ∈ s.data := by
  unfold strings.Contains
  generalize s.data = l
  induction l with
  | nil => simp [List.isPrefixOf]
  | cons c cs ih =>
    rw [List.tails, List.any_cons, Bool.or_eq_true, ih]
    simp [List.isPrefixOf]

theorem hasKey_iff {α : Type} (m : List (String × α)) (k : String) :
    hasKey m k = true ↔ k ∈ m.map Prod.fst := by
  simp [hasKey]

theorem SplitN_two_of_not_mem (s : String) (h : ':' ∉ s.data) :
    strings.SplitN s ':' 2 = [s] := by
  simp [strings.SplitN, splitCharsN_two_of_not_mem _ _ h]

theorem SplitN_two_append (ty ident : String) (h : ':' ∉ ty.data) :
    strings.SplitN (ty ++ ":" ++ ident) ':' 2 = [ty, ident] := by
  have e : (ty ++ ":" ++ ident).data = ty.data ++ ':' :: ident.data := by simp
  simp [strings.SplitN, e, splitCharsN_two_append _ _ _ h]

theorem exists_type_identifier (s : String) (h : ':' ∈ s.data) :
    ∃ ty ident : String, s = ty ++ ":" ++ ident ∧ ':' ∉ ty.data := by
  obtain ⟨a, b, e, hn⟩ := exists_first_split ':' s.data h
  exact ⟨⟨a⟩, ⟨b⟩, by simp [String.ext_iff, e], hn⟩

theorem validatePrincipal_no_colon (s : String) (p : Policy) (h : ':' ∉ s.data)
    (h1 : s ≠ "allUsers") (h2 : s ≠ "allAuthenticatedUsers") :
    validatePrincipal s p =
      .error ("invalid principal format: " ++ s ++ " (expected type:identifier)") := by
  simp [validatePrincipal, h1, h2, SplitN_two_of_not_mem s h]

theorem validatePrincipal_colon (ty ident : String) (p : Policy) (h : ':' ∉ ty.data) :
    validatePrincipal (ty ++ ":" ++ ident) p =
      if ty = "user" ∨ ty = "serviceAccount" then
        if '@' ∈ ident.data then .ok ()
        else .error ("invalid " ++ ty ++ ": " ++ ident ++ " (expected email format)")
      else if ty = "group" then
        if ident ∈ p.Groups.map Prod.fst then .ok ()
        else .error ("undefined group: " ++ ident)
      else
        .error ("unknown principal type: " ++ ty ++
          " (expected user, serviceAccount, or group)") := by
  have hc : ':' ∈ (ty ++ ":" ++ ident).data := by simp
  have h1 : ty ++ ":" ++ ident ≠ "allUsers" := by
    intro e; rw [e] at hc; revert hc; decide
  have h2 : ty ++ ":" ++ ident ≠ "allAuthenticatedUsers" := by
    intro e; rw [e] at hc; revert hc; decide
  unfold validatePrincipal
  rw [if_neg (by simp [h1, h2]), SplitN_two_append ty ident h]
  simp only []
  by_cases hu : ty = "user" ∨ ty = "serviceAccount"
  · by_cases ha : '@' ∈ ident.data
    · have := (Contains_at ident).2 ha
      simp [hu, ha, this]
    · have : strings.Contains ident "@" = false := by
        rw [← Bool.not_eq_true, Contains_at]; exact ha
      simp [hu, ha, this]
  · rw [if_neg hu, if_neg hu]
    by_cases hg : ty = "group"
    · by_cases hk : ident ∈ p.Groups.map Prod.fst
      · have := (hasKey_iff p.Groups ident).2 hk
        simp [hg, hk, this]
      · have : hasKey p.Groups ident = false := by
          rw [← Bool.not_eq_true, hasKey_iff]; exact hk
        simp [hg, hk, this]
    · simp [hg]

theorem validatePrincipal_ok_iff (s : String) (p : Policy) :
    validatePrincipal s p = .ok () ↔ AcceptedPrincipal p s := by
  constructor
  · intro h
    by_cases h1 : s = "allUsers"
    · exact Or.inl h1
    by_cases h2 : s = "allAuthenticatedUsers"
    · exact Or.inr (Or.inl h2)
    by_cases hc : ':' ∈ s.data
    · obtain ⟨ty, ident, e, hn⟩ := exists_type_identifier s hc
      refine Or.inr (Or.inr ⟨ty, ident, e, hn, ?_⟩)
      rw [e, validatePrincipal_colon ty ident p hn] at h
      by_cases hu : ty = "user" ∨ ty = "serviceAccount"
      · rw [if_pos hu] at h
        by_cases ha : '@' ∈ ident.data
        · exact Or.inl ⟨hu, ha⟩
        · simp [ha] at h
      · rw [if_neg hu] at h
        by_cases hg : ty = "group"
        · by_cases hk : ident ∈ p.Groups.map Prod.fst
          · exact Or.inr ⟨hg, hk⟩
          · rw [if_pos hg, if_neg hk] at h; simp at h
        · simp [hg] at h
    · rw [validatePrincipal_no_colon s p hc h1 h2] at h
      simp at h
  · rintro (h | h | ⟨ty, ident, e, hn, h⟩)
    · simp [validatePrincipal, h]
    · simp [validatePrincipal, h]
    · rw [e, validatePrincipal_colon ty ident p hn]
      rcases h with ⟨hu, ha⟩ | ⟨hg, hk⟩
      · simp [hu, ha]
      · have : ¬(ty = "user" ∨ ty = "serviceAccount") := by
          subst hg; decide
        simp [this, hg, hk]

theorem validatePermission_ok_iff (perm : String) :
    validatePermission perm = .ok () ↔
      3 ≤ (strings.Split perm '.').length ∧
        ((strings.Split perm '.').headD "" = "secretmanager" ∨
          (strings.Split perm '.').headD "" = "cloudkms") := by
  unfold validatePermission
  simp only []
  generalize (strings.Split perm '.').headD "" = service
  generalize (strings.Split perm '.').length = n
  by_cases h1 : n < 3
  · rw [if_pos h1]
    constructor
    · intro h; cases h
    · intro h; omega
  · rw [if_neg h1]
    by_cases h2 : service ≠ "secretmanager" ∧ service ≠ "cloudkms"
    · rw [if_pos h2]
      constructor
      · intro h; cases h
      · rintro ⟨-, h | h⟩
        · exact absurd h h2.1
        · exact absurd h h2.2
    · rw [if_neg h2]
      refine ⟨fun _ => ⟨by omega, ?_⟩, fun _ => rfl⟩
      by_cases h3 : service = "secretmanager"
      · exact Or.inl h3
      · by_cases h4 : service = "cloudkms"
        · exact Or.inr h4
        · exact absurd ⟨h3, h4⟩ h2

theorem permissionOk_eq_true_iff (perm : String) :
    permissionOk perm = true ↔ validatePermission perm = .ok () := by
  unfold permissionOk
  cases h : validatePermission perm <;> simp

theorem principalOk_eq_true_iff (p : Policy) (m : String) :
    principalOk p m = true ↔ AcceptedPrincipal p m := by
  rw [← validatePrincipal_ok_iff]
  unfold principalOk
  cases h : validatePrincipal m p <;> simp

/-! ## Verdict -/

theorem roleOk_eq_false_iff (roleName : String) (role : Role) :
    roleOk roleName role = false ↔
      strings.HasPrefix roleName "roles/" = false ∨
      ∃ perm ∈ role.Permissions,
        (strings.Split perm '.').length < 3 ∨
          ((strings.Split perm '.').headD "" ≠ "secretmanager" ∧
            (strings.Split perm '.').headD "" ≠ "cloudkms") := by
  rw [← Bool.not_eq_true, roleOk, Bool.and_eq_true, List.all_eq_true, not_and_or]
  simp only [permissionOk_eq_true_iff, validatePermission_ok_iff, Bool.not_eq_true,
    not_forall, not_and_or, not_le, not_or, exists_prop]

theorem bindingOk_eq_false_iff (p : Policy) (b : Binding) :
    bindingOk p b = false ↔
      strings.HasPrefix b.Role "roles/" = false ∨
      (strings.HasPrefix b.Role "roles/custom." = true ∧ b.Role ∉ p.Roles.map Prod.fst) ∨
      b.Members = [] ∨
      (∃ m ∈ b.Members, ¬AcceptedPrincipal p m) ∨
      (∃ c, b.Condition = some c ∧ c.Expression = "") := by
  have hE : b.Members.isEmpty = decide (b.Members = []) := by
    cases b.Members <;> simp
  have hC : (match b.Condition with
      | some c => decide (c.Expression ≠ "")
      | none => true) = true ↔ ¬∃ c, b.Condition = some c ∧ c.Expression = "" := by
    cases b.Condition <;> simp
  rw [← Bool.not_eq_true, bindingOk]
  simp only [Bool.and_eq_true, Bool.or_eq_true, Bool.not_eq_true', hC, hE, List.all_eq_true,
    principalOk_eq_true_iff, decide_eq_false_iff_not, ← hasKey_iff]
  by_cases h1 : strings.HasPrefix b.Role "roles/" = true <;>
    by_cases h2 : strings.HasPrefix b.Role "roles/custom." = true <;>
    by_cases h3 : hasKey p.Roles b.Role = true <;>
    by_cases h4 : b.Members = [] <;>
    by_cases h5 : ∃ c, b.Condition = some c ∧ c.Expression = "" <;>
    by_cases h6 : ∀ x ∈ b.Members, AcceptedPrincipal p x <;>
    simp [h1, h2, h3, h4, h5, h6] <;> simpa using h6

theorem policyOk_eq_false_iff (p : Policy) :
    policyOk p = false ↔
      (∃ e ∈ p.Roles, roleOk e.1 e.2 = false) ∨
      (∃ e ∈ p.Projects, ∃ b ∈ e.2.Bindings, bindingOk p b = false) := by
  rw [← Bool.not_eq_true, policyOk, Bool.and_eq_true, List.all_eq_true, List.all_eq_true,
    not_and_or]
  simp

/-! ## The verdict of `Validate` -/

/-- C1: `Validate(p).Valid` is false exactly when at least one error-level check
applies to `p`: a role key without the `roles/` prefix, a role permission with
fewer than three dot-separated segments or a first segment other than
`secretmanager`/`cloudkms`, a binding role without the `roles/` prefix, a
binding role with prefix `roles/custom.` that is no key of `p.Roles`, a binding
with no members, a binding member that is not an accepted principal, or a
binding whose condition is present with an empty expression.  The warning-level
conditions do not occur on the right-hand side: they never make `Valid` false. -/
theorem Validate_valid_false_iff (p : Policy) :
    (Validate p).Valid = false ↔
      (∃ e ∈ p.Roles, strings.HasPrefix e.1 "roles/" = false) ∨
      (∃ e ∈ p.Roles, ∃ perm ∈ e.2.Permissions,
        (strings.Split perm '.').length < 3 ∨
          ((strings.Split perm '.').headD "" ≠ "secretmanager" ∧
            (strings.Split perm '.').headD "" ≠ "cloudkms")) ∨
      (∃ e ∈ p.Projects, ∃ b ∈ e.2.Bindings, strings.HasPrefix b.Role "roles/" = false) ∨
      (∃ e ∈ p.Projects, ∃ b ∈ e.2.Bindings,
        strings.HasPrefix b.Role "roles/custom." = true ∧ b.Role ∉ p.Roles.map Prod.fst) ∨
      (∃ e ∈ p.Projects, ∃ b ∈ e.2.Bindings, b.Members = []) ∨
      (∃ e ∈ p.Projects, ∃ b ∈ e.2.Bindings, ∃ m ∈ b.Members, ¬AcceptedPrincipal p m) ∨
      (∃ e ∈ p.Projects, ∃ b ∈ e.2.Bindings, ∃ c, b.Condition = some c ∧ c.Expression = "") := by
  rw [Validate_eq]
  show policyOk p = false ↔ _
  rw [policyOk_eq_false_iff]
  simp only [roleOk_eq_false_iff, bindingOk_eq_false_iff]
  constructor
  · rintro (⟨e, he, h | h⟩ | ⟨e, he, b, hb, h | h | h | h | h⟩)
    · exact Or.inl ⟨e, he, h⟩
    · exact Or.inr (Or.inl ⟨e, he, h⟩)
    · exact Or.inr (Or.inr (Or.inl ⟨e, he, b, hb, h⟩))
    · exact Or.inr (Or.inr (Or.inr (Or.inl ⟨e, he, b, hb, h⟩)))
    · exact Or.inr (Or.inr (Or.inr (Or.inr (Or.inl ⟨e, he, b, hb, h⟩))))
    · exact Or.inr (Or.inr (Or.inr (Or.inr (Or.inr (Or.inl ⟨e, he, b, hb, h⟩)))))
    · exact Or.inr (Or.inr (Or.inr (Or.inr (Or.inr (Or.inr ⟨e, he, b, hb, h⟩)))))
  · rintro (⟨e, he, h⟩ | ⟨e, he, h⟩ | ⟨e, he, b, hb, h⟩ | ⟨e, he, b, hb, h⟩ |
      ⟨e, he, b, hb, h⟩ | ⟨e, he, b, hb, h⟩ | ⟨e, he, b, hb, h⟩)
    · exact Or.inl ⟨e, he, Or.inl h⟩
    · exact Or.inl ⟨e, he, Or.inr h⟩
    · exact Or.inr ⟨e, he, b, hb, Or.inl h⟩
    · exact Or.inr ⟨e, he, b, hb, Or.inr (Or.inl h)⟩
    · exact Or.inr ⟨e, he, b, hb, Or.inr (Or.inr (Or.inl h))⟩
    · exact Or.inr ⟨e, he, b, hb, Or.inr (Or.inr (Or.inr (Or.inl h)))⟩
    · exact Or.inr ⟨e, he, b, hb, Or.inr (Or.inr (Or.inr (Or.inr h)))⟩

/-! ## Counting error findings -/

theorem errorFindings_append (l₁ l₂ : List String) :
    errorFindings (l₁ ++ l₂) = errorFindings l₁ ++ errorFindings l₂ := by
  simp [errorFindings]

theorem errorFindings_flatMap_length {α : Type} (l : List α) (f : α → List String) :
    (errorFindings (l.flatMap f)).length = (l.map (fun x => (errorFindings (f x)).length)).sum := by
  induction l with
  | nil => simp [errorFindings]
  | cons x xs ih => simp [errorFindings_append, ih]

theorem errorFindings_enumFrom_length (bs : List Binding) (i : Nat)
    (f : Nat → Binding → List String) (g : Binding → Nat)
    (h : ∀ j b, (errorFindings (f j b)).length = g b) :
    (errorFindings ((bs.enumFrom i).flatMap (fun ib => f ib.1 ib.2))).length =
      (bs.map g).sum := by
  induction bs generalizing i with
  | nil => simp [errorFindings]
  | cons b bs ih => simp [List.enumFrom_cons, errorFindings_append, ih, h]

theorem isWarning_role (roleName rest : String) :
    isWarning ("Role " ++ roleName ++ rest) = false := by
  simp [isWarning, strings.HasPrefix, List.isPrefixOf]

theorem isWarning_bindingPrefix (projectName : String) (i : Nat) (rest : String) :
    isWarning (bindingPrefix projectName i ++ rest) = false := by
  simp [isWarning, strings.HasPrefix, List.isPrefixOf, bindingPrefix]

theorem errorFindings_permissionFindings (roleName perm : String) :
    (errorFindings (permissionFindings roleName perm)).length =
      if validatePermission perm = .ok () then 0 else 1 := by
  unfold permissionFindings
  cases h : validatePermission perm with
  | error err =>
    have := isWarning_role roleName (": " ++ err)
    rw [← String.append_assoc] at this
    simp [errorFindings, this]
  | ok u => simp [errorFindings]

theorem errorFindings_roleFindings (roleName : String) (role : Role) :
    (errorFindings (roleFindings roleName role)).length =
      (if strings.HasPrefix roleName "roles/" then 0 else 1) +
        role.Permissions.countP (fun perm => decide (validatePermission perm ≠ .ok ())) := by
  have hperm : (errorFindings (role.Permissions.flatMap (permissionFindings roleName))).length =
      role.Permissions.countP (fun perm => decide (validatePermission perm ≠ .ok ())) := by
    rw [errorFindings_flatMap_length]
    induction role.Permissions with
    | nil => simp
    | cons x xs ih =>
      rw [List.map_cons, List.sum_cons, ih, errorFindings_permissionFindings, List.countP_cons]
      by_cases h : validatePermission x = .ok () <;> simp [h]
      omega
  unfold roleFindings
  rw [errorFindings_append, errorFindings_append, List.length_append, List.length_append, hperm]
  have h1 : isWarning ("Role name must start with 'roles/': " ++ roleName) = false := by
    simp [isWarning, strings.HasPrefix, List.isPrefixOf]
  have h2 : isWarning ("WARNING: Role " ++ roleName ++ " has no permissions") = true := by
    simp [isWarning, strings.HasPrefix, List.isPrefixOf]
  by_cases ha : strings.HasPrefix roleName "roles/" = true <;>
    by_cases hb : role.Permissions = [] <;>
    simp [ha, hb, errorFindings, h1, h2]

theorem errorFindings_memberFindings (p : Policy) (projectName : String) (i : Nat)
    (member : String) :
    (errorFindings (memberFindings p projectName i member)).length =
      if validatePrincipal member p = .ok () then 0 else 1 := by
  unfold memberFindings
  cases h : validatePrincipal member p with
  | error err => simp [errorFindings, isWarning_bindingPrefix]
  | ok u => simp [errorFindings]

/-- The number of error findings of one binding, as the specification counts them. -/
theorem errorFindings_bindingFindings (p : Policy) (projectName : String) (i : Nat)
    (b : Binding) :
    (errorFindings (bindingFindings p projectName i b)).length =
      (if strings.HasPrefix b.Role "roles/" then 0 else 1) +
      (if strings.HasPrefix b.Role "roles/custom." ∧ b.Role ∉ p.Roles.map Prod.fst
        then 1 else 0) +
      (if b.Members = [] then 1 else 0) +
      b.Members.countP (fun m => decide (validatePrincipal m p ≠ .ok ())) +
      (if ∃ c, b.Condition = some c ∧ c.Expression = "" then 1 else 0) := by
  have hmem : (errorFindings (b.Members.flatMap (memberFindings p projectName i))).length =
      b.Members.countP (fun m => decide (validatePrincipal m p ≠ .ok ())) := by
    rw [errorFindings_flatMap_length]
    induction b.Members with
    | nil => simp
    | cons x xs ih =>
      rw [List.map_cons, List.sum_cons, ih, errorFindings_memberFindings, List.countP_cons]
      by_cases h : validatePrincipal x p = .ok () <;> simp [h]
      omega
  have hund := isWarning_bindingPrefix projectName i ("undefined role " ++ b.Role)
  rw [← String.append_assoc] at hund
  unfold bindingFindings
  simp only [errorFindings_append, List.length_append, hmem]
  congr 1
  · congr 1
    congr 1
    · congr 1
      · unfold rolePrefixFinding
        split <;> simp [errorFindings, isWarning_bindingPrefix]
      · unfold undefinedRoleFinding
        simp only [← hasKey_iff]
        by_cases h1 : strings.HasPrefix b.Role "roles/custom." = true <;>
          by_cases h2 : hasKey p.Roles b.Role = true <;>
          simp [h1, h2, errorFindings, hund]
    · unfold noMembersFinding
      split <;> simp [errorFindings, isWarning_bindingPrefix]
  · unfold conditionFinding
    rcases hc : b.Condition with _ | c
    · simp [errorFindings]
    · by_cases he : c.Expression = "" <;> simp [he, errorFindings, isWarning_bindingPrefix]

/-- C2: `Validate` accumulates every problem: the number of error findings
(entries without the `WARNING: ` mark of `addWarning`) is the sum, over the role
keys, of 1 for a missing `roles/` prefix plus the number of permission
occurrences `validatePermission` rejects, and, over every binding of every
project, of 1 for a role without the `roles/` prefix, 1 for an undefined custom
role, 1 for an empty member list, the number of member occurrences
`validatePrincipal` rejects, and 1 for a present condition with empty expression. -/
theorem Validate_error_count (p : Policy) :
    (errorFindings (Validate p).Errors).length =
      (p.Roles.map (fun e =>
        (if strings.HasPrefix e.1 "roles/" then 0 else 1) +
          e.2.Permissions.countP (fun perm => decide (validatePermission perm ≠ .ok ())))).sum +
      (p.Projects.map (fun e =>
        (e.2.Bindings.map (fun b =>
          (if strings.HasPrefix b.Role "roles/" then 0 else 1) +
          (if strings.HasPrefix b.Role "roles/custom." ∧ b.Role ∉ p.Roles.map Prod.fst
            then 1 else 0) +
          (if b.Members = [] then 1 else 0) +
          b.Members.countP (fun m => decide (validatePrincipal m p ≠ .ok ())) +
          (if ∃ c, b.Condition = some c ∧ c.Expression = "" then 1 else 0))).sum)).sum := by
  rw [Validate_eq]
  show (errorFindings (rolesSection p ++ projectsSection p)).length = _
  rw [errorFindings_append, List.length_append]
  congr 1
  · unfold rolesSection
    by_cases h : p.Roles = []
    · simp [h, errorFindings, isWarning, strings.HasPrefix, List.isPrefixOf]
    · rw [if_neg h, errorFindings_flatMap_length]
      simp only [errorFindings_roleFindings]
  · unfold projectsSection
    by_cases h : p.Projects = []
    · simp [h, errorFindings, isWarning, strings.HasPrefix, List.isPrefixOf]
    · rw [if_neg h, errorFindings_flatMap_length]
      congr 1
      apply List.map_congr_left
      intro e _
      unfold projectFindings
      by_cases hb : e.2.Bindings = []
      · simp [hb, errorFindings, isWarning, strings.HasPrefix, List.isPrefixOf]
      · rw [if_neg hb, List.enum]
        exact errorFindings_enumFrom_length e.2.Bindings 0 (bindingFindings p e.1) _
          (fun j b => errorFindings_bindingFindings p e.1 j b)

/-! ## Position of a binding's findings in the report -/

theorem enum_flatMap_split (p : Policy) (projectName : String)
    (bs₁ : List Binding) (b : Binding) (bs₂ : List Binding) :
    (bs₁ ++ b :: bs₂).enum.flatMap (fun ib => bindingFindings p projectName ib.1 ib.2) =
      bs₁.enum.flatMap (fun ib => bindingFindings p projectName ib.1 ib.2) ++
        bindingFindings p projectName bs₁.length b ++
        (bs₂.enumFrom (bs₁.length + 1)).flatMap
          (fun ib => bindingFindings p projectName ib.1 ib.2) := by
  simp [List.enum, List.enumFrom_append, List.enumFrom_cons]

theorem Validate_errors_split (p : Policy) (ps₁ ps₂ : List (String × Project))
    (projectName : String) (bs₁ bs₂ : List Binding) (b : Binding)
    (hp : p.Projects = ps₁ ++ (projectName, ⟨bs₁ ++ b :: bs₂⟩) :: ps₂) :
    (Validate p).Errors =
      findingsBefore p ps₁ projectName bs₁ ++ bindingFindings p projectName bs₁.length b ++
        findingsAfter p projectName (bs₁.length + 1) bs₂ ps₂ := by
  rw [Validate_eq]
  show rolesSection p ++ projectsSection p = _
  have hne : p.Projects ≠ [] := by rw [hp]; simp
  unfold projectsSection
  rw [if_neg hne, hp]
  simp only [List.flatMap_append, List.flatMap_cons, findingsBefore, findingsAfter]
  have hb : projectFindings p projectName ⟨bs₁ ++ b :: bs₂⟩ =
      (bs₁ ++ b :: bs₂).enum.flatMap (fun ib => bindingFindings p projectName ib.1 ib.2) := by
    simp [projectFindings]
  rw [hb, enum_flatMap_split]
  simp only [List.append_assoc]

/-- C3: the findings `Validate` emits for one binding are, in this order, the
role-prefix error, the undefined-custom-role error, the "no members specified"
error, the per-principal errors in the order of the Members list, and the
"condition has empty expression" error, each present exactly when its condition
holds; the loop body appends exactly this block to the findings gathered so far,
and the block is contiguous in the report, between the findings of what comes
before the binding and the findings of what comes after it. -/
theorem binding_findings_in_fixed_order (p : Policy) (ps₁ ps₂ : List (String × Project))
    (projectName : String) (bs₁ bs₂ : List Binding) (b : Binding)
    (hp : p.Projects = ps₁ ++ (projectName, ⟨bs₁ ++ b :: bs₂⟩) :: ps₂) :
    bindingFindings p projectName bs₁.length b =
        (if strings.HasPrefix b.Role "roles/" then []
          else [bindingPrefix projectName bs₁.length ++ "role must start with 'roles/'"]) ++
        (if strings.HasPrefix b.Role "roles/custom." ∧ b.Role ∉ p.Roles.map Prod.fst
          then [bindingPrefix projectName bs₁.length ++ "undefined role " ++ b.Role]
          else []) ++
        (if b.Members = []
          then [bindingPrefix projectName bs₁.length ++ "no members specified"] else []) ++
        b.Members.flatMap (fun m =>
          match validatePrincipal m p with
          | .error err => [bindingPrefix projectName bs₁.length ++ err]
          | .ok _ => []) ++
        (if ∃ c, b.Condition = some c ∧ c.Expression = ""
          then [bindingPrefix projectName bs₁.length ++ "condition has empty expression"]
          else []) ∧
      (∀ r : ValidationResult,
        (checkBinding p projectName bs₁.length b r).Errors =
          r.Errors ++ bindingFindings p projectName bs₁.length b) ∧
      (Validate p).Errors =
        findingsBefore p ps₁ projectName bs₁ ++ bindingFindings p projectName bs₁.length b ++
          findingsAfter p projectName (bs₁.length + 1) bs₂ ps₂ := by
  refine ⟨?_, fun r => by rw [checkBinding_eq], Validate_errors_split p ps₁ ps₂ projectName bs₁ bs₂ b hp⟩
  unfold bindingFindings
  congr 1
  · congr 1
    · congr 1
      · congr 1
        unfold undefinedRoleFinding
        simp only [← hasKey_iff]
        by_cases h1 : strings.HasPrefix b.Role "roles/custom." = true <;>
          by_cases h2 : hasKey p.Roles b.Role = true <;> simp [h1, h2]
  · unfold conditionFinding
    rcases hc : b.Condition with _ | c
    · simp
    · by_cases he : c.Expression = "" <;> simp [he]

/-- C3, at a concrete policy: one project `p` whose only binding has an undefined
custom role, an undefined group, a malformed user and an empty condition. -/
theorem binding_findings_in_fixed_order_witness :
    samplePolicy.Projects = [] ++ ("p", ⟨[] ++ sampleBinding :: []⟩) :: [] ∧
      (Validate samplePolicy).Errors =
        findingsBefore samplePolicy [] "p" [] ++ bindingFindings samplePolicy "p" 0 sampleBinding ++
          findingsAfter samplePolicy "p" 1 [] [] :=
  ⟨rfl, (binding_findings_in_fixed_order samplePolicy [] [] "p" [] [] sampleBinding rfl).2.2⟩

theorem hasKey_perm {α : Type} (m₁ m₂ : List (String × α)) (h : m₁.Perm m₂) (k : String) :
    hasKey m₁ k = hasKey m₂ k := by
  rw [Bool.eq_iff_iff, hasKey_iff, hasKey_iff]
  exact (h.map Prod.fst).mem_iff

theorem validatePrincipal_congr (p q : Policy)
    (hg : ∀ k, hasKey p.Groups k = hasKey q.Groups k) (m : String) :
    validatePrincipal m p = validatePrincipal m q := by
  simp only [validatePrincipal, hg]

theorem bindingOk_congr (p q : Policy) (hr : ∀ k, hasKey p.Roles k = hasKey q.Roles k)
    (hg : ∀ k, hasKey p.Groups k = hasKey q.Groups k) (b : Binding) :
    bindingOk p b = bindingOk q b := by
  have hp : principalOk p = principalOk q := by
    funext m
    simp only [principalOk, validatePrincipal_congr p q hg]
  simp only [bindingOk, hr, hp]

theorem policyOk_congr (p q : Policy) (h : SameMaps p q) : policyOk p = policyOk q := by
  obtain ⟨hr, hg, hp⟩ := h
  have hb : bindingOk p = bindingOk q := by
    funext b
    exact bindingOk_congr p q (hasKey_perm _ _ hr) (hasKey_perm _ _ hg) b
  rw [Bool.eq_iff_iff]
  simp only [policyOk, hb, Bool.and_eq_true, List.all_eq_true]
  constructor
  · rintro ⟨h1, h2⟩
    exact ⟨fun e he => h1 e (hr.mem_iff.2 he), fun e he => h2 e (hp.mem_iff.2 he)⟩
  · rintro ⟨h1, h2⟩
    exact ⟨fun e he => h1 e (hr.mem_iff.1 he), fun e he => h2 e (hp.mem_iff.1 he)⟩

theorem bindingFindings_congr (p q : Policy) (hr : ∀ k, hasKey p.Roles k = hasKey q.Roles k)
    (hg : ∀ k, hasKey p.Groups k = hasKey q.Groups k) :
    bindingFindings p = bindingFindings q := by
  funext projectName i b
  have hm : memberFindings p projectName i = memberFindings q projectName i := by
    funext m
    simp only [memberFindings, validatePrincipal_congr p q hg]
  simp only [bindingFindings, undefinedRoleFinding, hr, hm]

theorem Validate_congr (p q : Policy) (hr : p.Roles = q.Roles) (hp : p.Projects = q.Projects)
    (hg : ∀ k, hasKey p.Groups k = hasKey q.Groups k) : Validate p = Validate q := by
  have hb : bindingFindings p = bindingFindings q :=
    bindingFindings_congr p q (fun k => by rw [hr]) hg
  have hok : bindingOk p = bindingOk q := by
    funext b
    exact bindingOk_congr p q (fun k => by rw [hr]) hg b
  rw [Validate_eq, Validate_eq]
  simp only [policyOk, rolesSection, projectsSection, projectFindings, hr, hp, hb, hok]

theorem perm_eq_of_length_le_one {α : Type} (l₁ l₂ : List α) (h : l₁.Perm l₂)
    (hl : l₁.length ≤ 1) : l₁ = l₂ := by
  match l₁, hl with
  | [], _ => exact (List.perm_nil.1 h.symm).symm
  | [a], _ => exact (List.perm_singleton.1 h.symm).symm

/-- C5, counterexample: the two policies hold the same well-formed maps and differ
only in the order in which the two roles are visited, and the two reports differ. -/
theorem Validate_depends_on_enumeration :
    twoRolesDevOps.WellFormed ∧ SameMaps twoRolesDevOps twoRolesOpsDev ∧
      Validate twoRolesDevOps ≠ Validate twoRolesOpsDev := by
  refine ⟨?_, ⟨List.Perm.swap _ _ _, List.Perm.refl _, List.Perm.refl _⟩, by decide⟩
  unfold Policy.WellFormed
  decide

/-- C5, amended: for two enumerations of one policy `Validate` returns the same
`Valid` flag; it returns the same findings in the same order when the Roles and
the Projects maps are visited in the same order, which is always so for a
policy with at most one role and at most one project. -/
theorem Validate_deterministic_for_fixed_enumeration (p q : Policy) (h : SameMaps p q) :
    (Validate p).Valid = (Validate q).Valid ∧
      (p.Roles = q.Roles → p.Projects = q.Projects → Validate p = Validate q) ∧
      (p.Roles.length ≤ 1 → p.Projects.length ≤ 1 → Validate p = Validate q) := by
  have hg : ∀ k, hasKey p.Groups k = hasKey q.Groups k := hasKey_perm _ _ h.2.1
  refine ⟨?_, fun hr hp => Validate_congr p q hr hp hg, fun hr hp => ?_⟩
  · rw [Validate_eq, Validate_eq]
    exact policyOk_congr p q h
  · exact Validate_congr p q (perm_eq_of_length_le_one _ _ h.1 hr)
      (perm_eq_of_length_le_one _ _ h.2.2 hp) hg

/-- C5, amended, at the two enumerations of the two-role policy: same verdict. -/
theorem Validate_deterministic_for_fixed_enumeration_witness :
    SameMaps twoRolesDevOps twoRolesOpsDev ∧
      (Validate twoRolesDevOps).Valid = (Validate twoRolesOpsDev).Valid :=
  ⟨⟨List.Perm.swap _ _ _, List.Perm.refl _, List.Perm.refl _⟩,
    (Validate_deterministic_for_fixed_enumeration twoRolesDevOps twoRolesOpsDev
      ⟨List.Perm.swap _ _ _, List.Perm.refl _, List.Perm.refl _⟩).1⟩

/-! ## Which finding of a binding is which -/

theorem bindingPrefix_append_inj (projectName : String) (i : Nat) (a b : String) :
    bindingPrefix projectName i ++ a = bindingPrefix projectName i ++ b ↔ a = b := by
  simp [String.ext_iff]

theorem validatePrincipal_error_shape (m : String) (p : Policy) (err : String)
    (h : validatePrincipal m p = .error err) :
    (∃ rest, err = "invalid " ++ rest) ∨ (∃ rest, err = "undefined group: " ++ rest) ∨
      (∃ rest, err = "unknown principal type: " ++ rest) := by
  by_cases h1 : m = "allUsers"
  · simp [validatePrincipal, h1] at h
  by_cases h2 : m = "allAuthenticatedUsers"
  · simp [validatePrincipal, h2] at h
  by_cases hc : ':' ∈ m.data
  · obtain ⟨ty, ident, e, hn⟩ := exists_type_identifier m hc
    rw [e, validatePrincipal_colon ty ident p hn] at h
    split_ifs at h
    · exact Or.inl ⟨ty ++ ": " ++ ident ++ " (expected email format)", by
        cases h; simp [String.ext_iff]⟩
    · exact Or.inr (Or.inl ⟨ident, by cases h; rfl⟩)
    · exact Or.inr (Or.inr ⟨ty ++ " (expected user, serviceAccount, or group)", by
        cases h; simp [String.ext_iff]⟩)
  · rw [validatePrincipal_no_colon m p hc h1 h2] at h
    exact Or.inl ⟨"principal format: " ++ m ++ " (expected type:identifier)", by
      cases h; simp [String.ext_iff]⟩

theorem mem_bindingFindings (p : Policy) (projectName : String) (i : Nat) (b : Binding)
    (x : String) :
    x ∈ bindingFindings p projectName i b ↔
      x ∈ rolePrefixFinding projectName i b ∨ x ∈ undefinedRoleFinding p projectName i b ∨
      x ∈ noMembersFinding projectName i b ∨
      (∃ m ∈ b.Members, x ∈ memberFindings p projectName i m) ∨
      x ∈ conditionFinding projectName i b := by
  simp [bindingFindings, List.mem_flatMap, or_assoc]

theorem HasPrefix_roles_of_custom (s : String)
    (h : strings.HasPrefix s "roles/custom." = true) : strings.HasPrefix s "roles/" = true := by
  unfold strings.HasPrefix at h ⊢
  rw [List.isPrefixOf_iff_prefix] at h ⊢
  exact List.IsPrefix.trans (by decide) h

theorem not_mem_memberFindings (p : Policy) (projectName : String) (i : Nat) (m text : String)
    (h1 : ∀ rest, text ≠ "invalid " ++ rest)
    (h2 : ∀ rest, text ≠ "undefined group: " ++ rest)
    (h3 : ∀ rest, text ≠ "unknown principal type: " ++ rest) :
    bindingPrefix projectName i ++ text ∉ memberFindings p projectName i m := by
  unfold memberFindings
  cases h : validatePrincipal m p with
  | ok u => simp
  | error err =>
    simp only [List.mem_singleton, bindingPrefix_append_inj]
    intro e
    rcases validatePrincipal_error_shape m p err h with ⟨rest, hr⟩ | ⟨rest, hr⟩ | ⟨rest, hr⟩
    · exact h1 rest (e.trans hr)
    · exact h2 rest (e.trans hr)
    · exact h3 rest (e.trans hr)

theorem mem_rolePrefixFinding (projectName : String) (i : Nat) (b : Binding) (text : String) :
    bindingPrefix projectName i ++ text ∈ rolePrefixFinding projectName i b ↔
      strings.HasPrefix b.Role "roles/" = false ∧ text = "role must start with 'roles/'" := by
  unfold rolePrefixFinding
  by_cases h : strings.HasPrefix b.Role "roles/" = true <;>
    simp [h, bindingPrefix_append_inj]

theorem mem_undefinedRoleFinding (p : Policy) (projectName : String) (i : Nat) (b : Binding)
    (text : String) :
    bindingPrefix projectName i ++ text ∈ undefinedRoleFinding p projectName i b ↔
      (strings.HasPrefix b.Role "roles/custom." = true ∧ b.Role ∉ p.Roles.map Prod.fst) ∧
        text = "undefined role " ++ b.Role := by
  unfold undefinedRoleFinding
  simp only [← hasKey_iff]
  by_cases h1 : strings.HasPrefix b.Role "roles/custom." = true <;>
    by_cases h2 : hasKey p.Roles b.Role = true <;>
    simp [h1, h2, String.append_assoc, bindingPrefix_append_inj]

theorem mem_noMembersFinding (projectName : String) (i : Nat) (b : Binding) (text : String) :
    bindingPrefix projectName i ++ text ∈ noMembersFinding projectName i b ↔
      b.Members = [] ∧ text = "no members specified" := by
  unfold noMembersFinding
  by_cases h : b.Members = [] <;> simp [h, bindingPrefix_append_inj]

theorem mem_conditionFinding (projectName : String) (i : Nat) (b : Binding) (text : String) :
    bindingPrefix projectName i ++ text ∈ conditionFinding projectName i b ↔
      (∃ c, b.Condition = some c ∧ c.Expression = "") ∧
        text = "condition has empty expression" := by
  unfold conditionFinding
  rcases hc : b.Condition with _ | c
  · simp
  · by_cases he : c.Expression = "" <;> simp [he, bindingPrefix_append_inj]

theorem rolePrefix_mem_iff (p : Policy) (projectName : String) (i : Nat) (b : Binding) :
    bindingPrefix projectName i ++ "role must start with 'roles/'" ∈
        bindingFindings p projectName i b ↔
      strings.HasPrefix b.Role "roles/" = false := by
  have hm : ∀ m, bindingPrefix projectName i ++ "role must start with 'roles/'" ∉
      memberFindings p projectName i m := fun m =>
    not_mem_memberFindings p projectName i m _ (by simp [String.ext_iff])
      (by simp [String.ext_iff]) (by simp [String.ext_iff])
  rw [mem_bindingFindings, mem_rolePrefixFinding, mem_undefinedRoleFinding,
    mem_noMembersFinding, mem_conditionFinding]
  simp [hm, String.ext_iff]

theorem undefinedRole_mem_iff (p : Policy) (projectName : String) (i : Nat) (b : Binding) :
    bindingPrefix projectName i ++ "undefined role " ++ b.Role ∈
        bindingFindings p projectName i b ↔
      strings.HasPrefix b.Role "roles/custom." = true ∧ b.Role ∉ p.Roles.map Prod.fst := by
  have hm : ∀ m, bindingPrefix projectName i ++ ("undefined role " ++ b.Role) ∉
      memberFindings p projectName i m := fun m =>
    not_mem_memberFindings p projectName i m _ (by simp [String.ext_iff])
      (by simp [String.ext_iff]) (by simp [String.ext_iff])
  rw [String.append_assoc, mem_bindingFindings, mem_rolePrefixFinding,
    mem_undefinedRoleFinding, mem_noMembersFinding, mem_conditionFinding]
  simp [hm, String.ext_iff]

theorem condition_mem_iff (p : Policy) (projectName : String) (i : Nat) (b : Binding) :
    bindingPrefix projectName i ++ "condition has empty expression" ∈
        bindingFindings p projectName i b ↔
      ∃ c, b.Condition = some c ∧ c.Expression = "" := by
  have hm : ∀ m, bindingPrefix projectName i ++ "condition has empty expression" ∉
      memberFindings p projectName i m := fun m =>
    not_mem_memberFindings p projectName i m _ (by simp [String.ext_iff])
      (by simp [String.ext_iff]) (by simp [String.ext_iff])
  rw [mem_bindingFindings, mem_rolePrefixFinding, mem_undefinedRoleFinding,
    mem_noMembersFinding, mem_conditionFinding]
  simp [hm, String.ext_iff]

theorem exists_split_of_getElem? {α : Type} (bs : List α) (i : Nat) (b : α)
    (h : bs[i]? = some b) : ∃ bs₁ bs₂, bs = bs₁ ++ b :: bs₂ ∧ bs₁.length = i := by
  induction bs generalizing i with
  | nil => simp at h
  | cons x xs ih =>
    cases i with
    | zero =>
      simp at h
      exact ⟨[], xs, by simp [h], rfl⟩
    | succ j =>
      simp at h
      obtain ⟨bs₁, bs₂, e, hl⟩ := ih j h
      exact ⟨x :: bs₁, bs₂, by simp [e], by simp [hl]⟩

/-- Every finding of a binding of the policy is in the report of `Validate`. -/
theorem bindingFindings_subset_Validate (p : Policy) (projectName : String)
    (project : Project) (i : Nat) (b : Binding) (hp : (projectName, project) ∈ p.Projects)
    (hb : project.Bindings[i]? = some b) (x : String)
    (hx : x ∈ bindingFindings p projectName i b) : x ∈ (Validate p).Errors := by
  obtain ⟨ps₁, ps₂, e⟩ := List.append_of_mem hp
  obtain ⟨bs₁, bs₂, eb, hl⟩ := exists_split_of_getElem? project.Bindings i b hb
  have e2 : p.Projects = ps₁ ++ (projectName, ⟨bs₁ ++ b :: bs₂⟩) :: ps₂ := by
    rw [e, ← eb]
  rw [Validate_errors_split p ps₁ ps₂ projectName bs₁ bs₂ b e2, hl]
  exact List.mem_append_left _ (List.mem_append_right _ hx)

/-- C6: a binding whose role starts with `roles/custom.` and is no key of the
Roles map gets the "undefined role" error, in its own block and hence in the
report, and does not get the "role must start with 'roles/'" error; and no
binding at all gets both role errors. -/
theorem undefined_custom_role_reported (p : Policy) (projectName : String)
    (project : Project) (i : Nat) (b : Binding) (hp : (projectName, project) ∈ p.Projects)
    (hb : project.Bindings[i]? = some b)
    (h1 : strings.HasPrefix b.Role "roles/custom." = true)
    (h2 : b.Role ∉ p.Roles.map Prod.fst) :
    (∀ r : ValidationResult,
      (checkBinding p projectName i b r).Errors =
        r.Errors ++ bindingFindings p projectName i b) ∧
    bindingPrefix projectName i ++ "undefined role " ++ b.Role ∈
      bindingFindings p projectName i b ∧
    bindingPrefix projectName i ++ "undefined role " ++ b.Role ∈ (Validate p).Errors ∧
    bindingPrefix projectName i ++ "role must start with 'roles/'" ∉
      bindingFindings p projectName i b ∧
    (∀ (q : Policy) (name : String) (j : Nat) (b' : Binding),
      ¬(bindingPrefix name j ++ "undefined role " ++ b'.Role ∈ bindingFindings q name j b' ∧
        bindingPrefix name j ++ "role must start with 'roles/'" ∈
          bindingFindings q name j b')) := by
  have hu := (undefinedRole_mem_iff p projectName i b).2 ⟨h1, h2⟩
  refine ⟨fun r => by rw [checkBinding_eq], hu,
    bindingFindings_subset_Validate p projectName project i b hp hb _ hu, ?_, ?_⟩
  · rw [rolePrefix_mem_iff, HasPrefix_roles_of_custom b.Role h1]
    simp
  · rintro q name j b' ⟨ha, hb'⟩
    rw [undefinedRole_mem_iff] at ha
    rw [rolePrefix_mem_iff, HasPrefix_roles_of_custom b'.Role ha.1] at hb'
    simp at hb'

/-- C6, at role `roles/custom.missing` with no roles defined. -/
theorem undefined_custom_role_reported_witness :
    "Project demo binding 0: undefined role roles/custom.missing" ∈
        (Validate missingRolePolicy).Errors ∧
      "Project demo binding 0: role must start with 'roles/'" ∉
        bindingFindings missingRolePolicy "demo" 0 missingRoleBinding := by
  have h := undefined_custom_role_reported missingRolePolicy "demo"
    { Bindings := [missingRoleBinding] } 0 missingRoleBinding (by decide) (by decide)
    (by decide) (by decide)
  exact ⟨h.2.2.1, h.2.2.2.1⟩

/-! ## Principals and permissions -/

/-- C7: `validatePrincipal` accepts exactly the two literal tokens and the strings
`type:identifier`, `type` being the text before the first colon, where `type`
is `user` or `serviceAccount` and the identifier contains `@`, or `type` is
`group` and the identifier is a key of the Groups map.  Every other string gets
one error: the format error when it has no colon, and otherwise the
unknown-type error, the email-format error or the undefined-group error,
according to its type. -/
theorem validatePrincipal_accepts_iff (s : String) (p : Policy) :
    (validatePrincipal s p = .ok () ↔
      s = "allUsers" ∨ s = "allAuthenticatedUsers" ∨
      ∃ ty ident : String, s = ty ++ ":" ++ ident ∧ ':' ∉ ty.data ∧
        (((ty = "user" ∨ ty = "serviceAccount") ∧ '@' ∈ ident.data) ∨
          (ty = "group" ∧ ident ∈ p.Groups.map Prod.fst))) ∧
    (validatePrincipal s p ≠ .ok () →
      (':' ∉ s.data →
        validatePrincipal s p =
          .error ("invalid principal format: " ++ s ++ " (expected type:identifier)")) ∧
      (∀ ty ident : String, s = ty ++ ":" ++ ident → ':' ∉ ty.data →
        (ty ≠ "user" → ty ≠ "serviceAccount" → ty ≠ "group" →
          validatePrincipal s p =
            .error ("unknown principal type: " ++ ty ++
              " (expected user, serviceAccount, or group)")) ∧
        (ty = "user" ∨ ty = "serviceAccount" →
          '@' ∉ ident.data ∧
          validatePrincipal s p =
            .error ("invalid " ++ ty ++ ": " ++ ident ++ " (expected email format)")) ∧
        (ty = "group" →
          ident ∉ p.Groups.map Prod.fst ∧
          validatePrincipal s p = .error ("undefined group: " ++ ident)))) := by
  refine ⟨validatePrincipal_ok_iff s p, fun hne => ⟨fun hc => ?_, fun ty ident e hn => ?_⟩⟩
  · have h1 : s ≠ "allUsers" := by
      intro h; apply hne; simp [validatePrincipal, h]
    have h2 : s ≠ "allAuthenticatedUsers" := by
      intro h; apply hne; simp [validatePrincipal, h]
    exact validatePrincipal_no_colon s p hc h1 h2
  · subst e
    rw [validatePrincipal_colon ty ident p hn] at hne ⊢
    refine ⟨fun h1 h2 h3 => ?_, fun hu => ?_, fun hg => ?_⟩
    · simp [h1, h2, h3]
    · rw [if_pos hu] at hne ⊢
      by_cases ha : '@' ∈ ident.data
      · simp [ha] at hne
      · exact ⟨ha, by rw [if_neg ha]⟩
    · have hu : ¬(ty = "user" ∨ ty = "serviceAccount") := by
        subst hg; decide
      rw [if_neg hu, if_pos hg] at hne ⊢
      by_cases hk : ident ∈ p.Groups.map Prod.fst
      · simp [hk] at hne
      · exact ⟨hk, by rw [if_neg hk]⟩

theorem Split_length (s : String) (sep : Char) :
    (strings.Split s sep).length = s.data.count sep + 1 := by
  simp [strings.Split, splitChars_length]

theorem splitChars_head (sep : Char) (s : List Char) :
    (strings.splitChars sep s).head? = some (s.takeWhile (fun c => c ≠ sep)) := by
  induction s with
  | nil => simp [strings.splitChars]
  | cons c cs ih =>
    unfold strings.splitChars
    by_cases h : c = sep
    · simp [h]
    · rw [if_neg h]
      have := splitChars_ne_nil sep cs
      split
      · contradiction
      · rename_i seg segs heq
        rw [heq] at ih
        simp at ih
        simp [List.takeWhile_cons, h, ih]

theorem Split_head (s : String) (sep : Char) :
    (strings.Split s sep).headD "" = ⟨s.data.takeWhile (fun c => c ≠ sep)⟩ := by
  have h := splitChars_head sep s.data
  unfold strings.Split
  cases hs : strings.splitChars sep s.data with
  | nil => rw [hs] at h; simp at h
  | cons seg segs =>
    rw [hs] at h
    simp at h
    simp [h]

/-- C8: `validatePermission` accepts exactly the strings that split on `.` into
at least three segments, the first being `secretmanager` or `cloudkms`; the
format error is reported exactly for fewer than three segments and the
unknown-service error exactly for at least three segments with another first
segment, so a permission yields at most one finding.  The segments are one more
than the dots, and the first segment is the text before the first dot. -/
theorem validatePermission_accepts_iff (s : String) :
    (validatePermission s = .ok () ↔
      3 ≤ (strings.Split s '.').length ∧
        ((strings.Split s '.').headD "" = "secretmanager" ∨
          (strings.Split s '.').headD "" = "cloudkms")) ∧
    (validatePermission s =
        .error ("invalid permission format: " ++ s ++ " (expected service.resource.verb)") ↔
      (strings.Split s '.').length < 3) ∧
    (validatePermission s =
        .error ("unknown service in permission: " ++ (strings.Split s '.').headD "" ++
          " (expected secretmanager or cloudkms)") ↔
      3 ≤ (strings.Split s '.').length ∧
        (strings.Split s '.').headD "" ≠ "secretmanager" ∧
        (strings.Split s '.').headD "" ≠ "cloudkms") ∧
    (∀ roleName : String, (permissionFindings roleName s).length ≤ 1) ∧
    (strings.Split s '.').length = s.data.count '.' + 1 ∧
    (strings.Split s '.').headD "" = ⟨s.data.takeWhile (fun c => c ≠ '.')⟩ ∧
    validatePermission "secretmanager.secrets" =
      .error "invalid permission format: secretmanager.secrets (expected service.resource.verb)" ∧
    validatePermission "unknownsvc.x.y" =
      .error "unknown service in permission: unknownsvc (expected secretmanager or cloudkms)" ∧
    validatePermission "secretmanager.secrets.get" = .ok () := by
  refine ⟨validatePermission_ok_iff s, ?_, ?_, ?_, Split_length s '.', Split_head s '.',
    by decide, by decide, by decide⟩
  · unfold validatePermission
    simp only []
    generalize (strings.Split s '.').headD "" = service
    generalize (strings.Split s '.').length = n
    by_cases h1 : n < 3
    · simp [h1]
    · rw [if_neg h1]
      by_cases h2 : service ≠ "secretmanager" ∧ service ≠ "cloudkms"
      · simp [h2, h1, String.ext_iff]
      · simp [h2, h1]
  · unfold validatePermission
    simp only []
    generalize (strings.Split s '.').headD "" = service
    generalize (strings.Split s '.').length = n
    by_cases h1 : n < 3
    · simp [h1, String.ext_iff]
    · rw [if_neg h1]
      by_cases h2 : service ≠ "secretmanager" ∧ service ≠ "cloudkms"
      · simp [h2]; omega
      · simp [h2]
  · intro roleName
    unfold permissionFindings
    cases validatePermission s <;> simp

/-- Every finding of a role of the policy is in the report of `Validate`. -/
theorem roleFindings_subset_Validate (p : Policy) (roleName : String) (role : Role)
    (hr : (roleName, role) ∈ p.Roles) (x : String) (hx : x ∈ roleFindings roleName role) :
    x ∈ (Validate p).Errors := by
  rw [Validate_eq]
  show x ∈ rolesSection p ++ projectsSection p
  have hne : p.Roles ≠ [] := List.ne_nil_of_mem hr
  unfold rolesSection
  rw [if_neg hne]
  exact List.mem_append_left _ (List.mem_flatMap.2 ⟨(roleName, role), hr, hx⟩)

theorem permissionFindings_subset_roleFindings (roleName : String) (role : Role)
    (perm : String) (hperm : perm ∈ role.Permissions) (x : String)
    (hx : x ∈ permissionFindings roleName perm) : x ∈ roleFindings roleName role := by
  unfold roleFindings
  exact List.mem_append_right _ (List.mem_flatMap.2 ⟨perm, hperm, hx⟩)

/-- C9, counterexample: the permission `unknownsvc.x` has the first segment
`unknownsvc`, which is not an allowed service, and the report of the policy
that lists it holds the format error only: no finding mentions an unknown
service. -/
theorem unknown_service_two_segments_unreported :
    (strings.Split "unknownsvc.x" '.').headD "" = "unknownsvc" ∧
      "unknownsvc" ≠ "secretmanager" ∧ "unknownsvc" ≠ "cloudkms" ∧
      (Validate unknownServicePolicy).Errors =
        ["Role roles/custom.dev: invalid permission format: unknownsvc.x " ++
            "(expected service.resource.verb)",
          "WARNING: No projects defined"] ∧
      "Role roles/custom.dev: unknown service in permission: unknownsvc " ++
          "(expected secretmanager or cloudkms)" ∉ (Validate unknownServicePolicy).Errors ∧
      ∀ f ∈ (Validate unknownServicePolicy).Errors,
        strings.Contains f "unknown service in permission" = false := by
  decide

/-- C9, amended: a permission of a role with at least three segments whose first
segment is neither `secretmanager` nor `cloudkms` gets the "unknown service in
permission" error in the report; a permission with fewer than three segments
gets the format error instead, whatever its first segment. -/
theorem unknown_service_reported (p : Policy) (roleName : String) (role : Role)
    (perm : String) (hr : (roleName, role) ∈ p.Roles) (hperm : perm ∈ role.Permissions) :
    (3 ≤ (strings.Split perm '.').length →
      (strings.Split perm '.').headD "" ≠ "secretmanager" →
      (strings.Split perm '.').headD "" ≠ "cloudkms" →
      "Role " ++ roleName ++ ": " ++
        ("unknown service in permission: " ++ (strings.Split perm '.').headD "" ++
          " (expected secretmanager or cloudkms)") ∈ (Validate p).Errors) ∧
    ((strings.Split perm '.').length < 3 →
      permissionFindings roleName perm =
        ["Role " ++ roleName ++ ": " ++
          ("invalid permission format: " ++ perm ++ " (expected service.resource.verb)")] ∧
      "Role " ++ roleName ++ ": " ++
        ("invalid permission format: " ++ perm ++ " (expected service.resource.verb)") ∈
          (Validate p).Errors) := by
  constructor
  · intro h3 h1 h2
    apply roleFindings_subset_Validate p roleName role hr
    apply permissionFindings_subset_roleFindings roleName role perm hperm
    have hlt : ¬(strings.Split perm '.').length < 3 := by omega
    simp only [permissionFindings, validatePermission]
    rw [if_neg hlt, if_pos ⟨h1, h2⟩]
    simp
  · intro h3
    have e : permissionFindings roleName perm =
        ["Role " ++ roleName ++ ": " ++
          ("invalid permission format: " ++ perm ++ " (expected service.resource.verb)")] := by
      simp only [permissionFindings, validatePermission]
      rw [if_pos h3]
    refine ⟨e, ?_⟩
    apply roleFindings_subset_Validate p roleName role hr
    apply permissionFindings_subset_roleFindings roleName role perm hperm
    rw [e]
    simp

/-- C9, amended, at a role that lists the three-segment permission `unknownsvc.x.y`. -/
theorem unknown_service_reported_witness :
    "Role roles/custom.dev: unknown service in permission: unknownsvc " ++
        "(expected secretmanager or cloudkms)" ∈
      (Validate { Roles := [("roles/custom.dev", { Permissions := ["unknownsvc.x.y"] })],
                  Groups := [], Projects := [] }).Errors :=
  (unknown_service_reported
    { Roles := [("roles/custom.dev", { Permissions := ["unknownsvc.x.y"] })],
      Groups := [], Projects := [] }
    "roles/custom.dev" { Permissions := ["unknownsvc.x.y"] } "unknownsvc.x.y"
    (by decide) (by decide)).1 (by decide) (by decide) (by decide)

/-! ## Replacing one binding -/

theorem bindingFindings_setBinding (p : Policy) (ps₁ ps₂ : List (String × Project))
    (projectName : String) (bs₁ bs₂ : List Binding) (b : Binding) :
    bindingFindings (setBinding p ps₁ projectName bs₁ b bs₂ ps₂) = bindingFindings p :=
  bindingFindings_congr _ _ (fun _ => rfl) (fun _ => rfl)

theorem bindingOk_setBinding (p : Policy) (ps₁ ps₂ : List (String × Project))
    (projectName : String) (bs₁ bs₂ : List Binding) (b : Binding) :
    bindingOk (setBinding p ps₁ projectName bs₁ b bs₂ ps₂) = bindingOk p := by
  funext b'
  exact bindingOk_congr _ _ (fun _ => rfl) (fun _ => rfl) b'

/-- The report for a policy in which one binding is singled out. -/
theorem Validate_setBinding (p : Policy) (ps₁ ps₂ : List (String × Project))
    (projectName : String) (bs₁ bs₂ : List Binding) (b : Binding) :
    Validate (setBinding p ps₁ projectName bs₁ b bs₂ ps₂) =
      { Valid := p.Roles.all (fun e => roleOk e.1 e.2) &&
          (ps₁.all (fun e => e.2.Bindings.all (bindingOk p)) &&
            (bs₁.all (bindingOk p) && (bindingOk p b && (bs₂.all (bindingOk p) &&
              ps₂.all (fun e => e.2.Bindings.all (bindingOk p)))))),
        Errors := findingsBefore p ps₁ projectName bs₁ ++
          bindingFindings p projectName bs₁.length b ++
          findingsAfter p projectName (bs₁.length + 1) bs₂ ps₂ } := by
  have hE := Validate_errors_split (setBinding p ps₁ projectName bs₁ b bs₂ ps₂) ps₁ ps₂
    projectName bs₁ bs₂ b rfl
  have hV : (Validate (setBinding p ps₁ projectName bs₁ b bs₂ ps₂)).Valid =
      policyOk (setBinding p ps₁ projectName bs₁ b bs₂ ps₂) := by rw [Validate_eq]
  have hF : ∀ l name, findingsBefore (setBinding p ps₁ projectName bs₁ b bs₂ ps₂) l name =
      findingsBefore p l name := by
    intro l name
    funext l'
    simp only [findingsBefore, projectFindings, rolesSection, bindingFindings_setBinding]
    rfl
  have hA : findingsAfter (setBinding p ps₁ projectName bs₁ b bs₂ ps₂) =
      findingsAfter p := by
    funext name start l l'
    simp only [findingsAfter, projectFindings, bindingFindings_setBinding]
  rw [hF, hA, bindingFindings_setBinding] at hE
  cases hv : Validate (setBinding p ps₁ projectName bs₁ b bs₂ ps₂) with
  | mk valid errors =>
    rw [hv] at hE hV
    simp only at hE hV
    rw [hE, hV, policyOk, bindingOk_setBinding]
    simp [setBinding, List.all_append, Bool.and_assoc]

theorem eq_setBinding (p : Policy) (ps₁ ps₂ : List (String × Project))
    (projectName : String) (bs₁ bs₂ : List Binding) (b : Binding)
    (hp : p.Projects = ps₁ ++ (projectName, ⟨bs₁ ++ b :: bs₂⟩) :: ps₂) :
    p = setBinding p ps₁ projectName bs₁ b bs₂ ps₂ := by
  cases p
  simp only [setBinding] at hp ⊢
  rw [hp]

/-- C10: a binding whose condition is present with an empty expression yields one
"condition has empty expression" error, whatever its other fields are: the
report of the policy is the report of the same policy with that condition set
to nil, with that one error inserted right after the binding's other findings,
and the verdict is false.  The error is not among the binding's other findings,
and no binding with a nil condition or a non-empty expression yields it.  The
title and the description of the condition do not change the report. -/
theorem empty_condition_adds_one_error (p q : Policy) (ps₁ ps₂ : List (String × Project))
    (projectName : String) (bs₁ bs₂ : List Binding) (b : Binding) (c : Condition)
    (hp : p.Projects = ps₁ ++ (projectName, ⟨bs₁ ++ b :: bs₂⟩) :: ps₂)
    (hc : b.Condition = some c) (he : c.Expression = "")
    (hq : q = setBinding p ps₁ projectName bs₁ { b with Condition := none } bs₂ ps₂) :
    (Validate q).Errors =
      findingsBefore q ps₁ projectName bs₁ ++
        bindingFindings q projectName bs₁.length { b with Condition := none } ++
        findingsAfter q projectName (bs₁.length + 1) bs₂ ps₂ ∧
    (Validate p).Errors =
      findingsBefore q ps₁ projectName bs₁ ++
        (bindingFindings q projectName bs₁.length { b with Condition := none } ++
          [bindingPrefix projectName bs₁.length ++ "condition has empty expression"]) ++
        findingsAfter q projectName (bs₁.length + 1) bs₂ ps₂ ∧
    (Validate p).Valid = false ∧
    bindingPrefix projectName bs₁.length ++ "condition has empty expression" ∉
      bindingFindings q projectName bs₁.length { b with Condition := none } ∧
    (∀ (r : Policy) (name : String) (j : Nat) (b' : Binding),
      (b'.Condition = none ∨ ∃ c', b'.Condition = some c' ∧ c'.Expression ≠ "") →
      bindingPrefix name j ++ "condition has empty expression" ∉
        bindingFindings r name j b') ∧
    (∀ title description : String,
      Validate (setBinding p ps₁ projectName bs₁
        { b with Condition := some { c with Title := title, Description := description } }
        bs₂ ps₂) = Validate p) := by
  have hself := eq_setBinding p ps₁ ps₂ projectName bs₁ bs₂ b hp
  have hqp : q = setBinding p ps₁ projectName bs₁ { b with Condition := none } bs₂ ps₂ := hq
  have hF : findingsBefore q ps₁ projectName bs₁ = findingsBefore p ps₁ projectName bs₁ := by
    rw [hq]
    simp only [findingsBefore, projectFindings, rolesSection, bindingFindings_setBinding]
    rfl
  have hA : findingsAfter q = findingsAfter p := by
    rw [hq]
    funext name start l l'
    simp only [findingsAfter, projectFindings, bindingFindings_setBinding]
  have hB : bindingFindings q = bindingFindings p := by
    rw [hq]; exact bindingFindings_setBinding _ _ _ _ _ _ _
  have hblock : bindingFindings p projectName bs₁.length b =
      bindingFindings p projectName bs₁.length { b with Condition := none } ++
        [bindingPrefix projectName bs₁.length ++ "condition has empty expression"] := by
    simp [bindingFindings, rolePrefixFinding, undefinedRoleFinding, noMembersFinding,
      conditionFinding, hc, he]
  have hnot : ∀ (r : Policy) (name : String) (j : Nat) (b' : Binding),
      (b'.Condition = none ∨ ∃ c', b'.Condition = some c' ∧ c'.Expression ≠ "") →
      bindingPrefix name j ++ "condition has empty expression" ∉
        bindingFindings r name j b' := by
    intro r name j b' h
    rw [condition_mem_iff]
    rintro ⟨c', h1, h2⟩
    rcases h with h | ⟨c'', h3, h4⟩
    · rw [h] at h1; cases h1
    · rw [h3] at h1; cases h1; exact h4 h2
  refine ⟨?_, ?_, ?_, ?_, hnot, ?_⟩
  · rw [hF, hA, hB]
    conv_lhs => rw [hqp]
    rw [Validate_setBinding]
  · rw [hF, hA, hB, ← hblock]
    conv_lhs => rw [hself]
    rw [Validate_setBinding]
  · rw [Validate_eq]
    show policyOk p = false
    rw [policyOk_eq_false_iff]
    refine Or.inr ⟨(projectName, ⟨bs₁ ++ b :: bs₂⟩), by rw [hp]; simp, b, by simp, ?_⟩
    rw [bindingOk_eq_false_iff]
    exact Or.inr (Or.inr (Or.inr (Or.inr ⟨c, hc, he⟩)))
  · exact hnot q projectName bs₁.length _ (Or.inl rfl)
  · intro title description
    conv_rhs => rw [hself]
    rw [Validate_setBinding, Validate_setBinding]
    have h1 : bindingFindings p projectName bs₁.length
        { b with Condition := some { c with Title := title, Description := description } } =
        bindingFindings p projectName bs₁.length b := by
      simp [bindingFindings, rolePrefixFinding, undefinedRoleFinding, noMembersFinding,
        conditionFinding, hc, he]
    have h2 : bindingOk p
        { b with Condition := some { c with Title := title, Description := description } } =
        bindingOk p b := by
      simp [bindingOk, hc, he]
    rw [h1, h2]

/-- C10, at the sample policy, whose only binding has a condition with an empty
expression: the report ends with that one error after the binding's other
findings, and the verdict is false. -/
theorem empty_condition_adds_one_error_witness :
    sampleBinding.Condition = some { Expression := "", Title := "", Description := "" } ∧
      (Validate samplePolicy).Valid = false ∧
      (Validate samplePolicy).Errors =
        findingsBefore
            (setBinding samplePolicy [] "p" [] { sampleBinding with Condition := none } [] [])
            [] "p" [] ++
          (bindingFindings
              (setBinding samplePolicy [] "p" [] { sampleBinding with Condition := none } [] [])
              "p" 0 { sampleBinding with Condition := none } ++
            ["Project p binding 0: condition has empty expression"]) ++
          findingsAfter
            (setBinding samplePolicy [] "p" [] { sampleBinding with Condition := none } [] [])
            "p" 1 [] [] :=
  have h := empty_condition_adds_one_error samplePolicy
    (setBinding samplePolicy [] "p" [] { sampleBinding with Condition := none } [] [])
    [] [] "p" [] [] sampleBinding { Expression := "", Title := "", Description := "" }
    rfl rfl rfl rfl
  ⟨rfl, h.2.2.1, h.2.1⟩

/-! ## Scenarios of the specification -/

theorem validatePrincipal_group_undefined (name : String) (p : Policy)
    (hg : p.Groups = []) :
    validatePrincipal ("group:" ++ name) p = .error ("undefined group: " ++ name) := by
  have e : "group:" ++ name = "group" ++ ":" ++ name := by simp [String.ext_iff]
  rw [e, validatePrincipal_colon "group" name p (by decide), hg]
  simp

/-- C11: with no roles, no groups and one project holding one binding without
condition whose role starts with `roles/custom.` and whose only member is
`group:<name>`, `Validate` returns `Valid = false` and the report is the
"No roles defined" warning, the undefined-role error and the undefined-group
error, in this order: two error findings. -/
theorem undefined_role_and_group_scenario (projectName role name : String)
    (h : strings.HasPrefix role "roles/custom." = true) :
    Validate
        { Roles := [], Groups := [],
          Projects := [(projectName,
            { Bindings := [{ Role := role, Members := ["group:" ++ name],
                             Condition := none }] })] } =
      { Valid := false,
        Errors := ["WARNING: No roles defined",
          bindingPrefix projectName 0 ++ "undefined role " ++ role,
          bindingPrefix projectName 0 ++ "undefined group: " ++ name] } ∧
    errorFindings (Validate
        { Roles := [], Groups := [],
          Projects := [(projectName,
            { Bindings := [{ Role := role, Members := ["group:" ++ name],
                             Condition := none }] })] }).Errors =
      [bindingPrefix projectName 0 ++ "undefined role " ++ role,
        bindingPrefix projectName 0 ++ "undefined group: " ++ name] := by
  have h0 := HasPrefix_roles_of_custom role h
  have hE : Validate
        { Roles := [], Groups := [],
          Projects := [(projectName,
            { Bindings := [{ Role := role, Members := ["group:" ++ name],
                             Condition := none }] })] } =
      { Valid := false,
        Errors := ["WARNING: No roles defined",
          bindingPrefix projectName 0 ++ "undefined role " ++ role,
          bindingPrefix projectName 0 ++ "undefined group: " ++ name] } := by
    simp [Validate, checkRoles, checkProjects, checkProject, checkBindings, checkBinding,
      checkMembers, validatePrincipal_group_undefined, h, h0, hasKey,
      ValidationResult.addError, ValidationResult.addWarning, String.ext_iff]
  refine ⟨hE, ?_⟩
  rw [hE]
  have h1 := isWarning_bindingPrefix projectName 0 ("undefined role " ++ role)
  have h2 := isWarning_bindingPrefix projectName 0 ("undefined group: " ++ name)
  rw [← String.append_assoc] at h1 h2
  have h3 : isWarning "WARNING: No roles defined" = true := by decide
  simp [errorFindings, h1, h2, h3]

/-- C11, at role `roles/custom.x` and member `group:nonexistent`. -/
theorem undefined_role_and_group_scenario_witness :
    Validate
        { Roles := [], Groups := [],
          Projects := [("demo",
            { Bindings := [{ Role := "roles/custom.x", Members := ["group:nonexistent"],
                             Condition := none }] })] } =
      { Valid := false,
        Errors := ["WARNING: No roles defined",
          "Project demo binding 0: undefined role roles/custom.x",
          "Project demo binding 0: undefined group: nonexistent"] } :=
  (undefined_role_and_group_scenario "demo" "roles/custom.x" "nonexistent" (by decide)).1

/-- C12: for the empty policy `Validate` returns `Valid = true` and the two
findings "WARNING: No roles defined" and "WARNING: No projects defined", in
this order; none of them is an error. -/
theorem empty_policy_scenario :
    Validate { Roles := [], Groups := [], Projects := [] } =
      { Valid := true,
        Errors := ["WARNING: No roles defined", "WARNING: No projects defined"] } ∧
    errorFindings (Validate { Roles := [], Groups := [], Projects := [] }).Errors = [] := by
  decide

/-! ## Severity is recoverable from the text -/

theorem any_error_permissionFindings (roleName perm : String) :
    (permissionFindings roleName perm).any (fun f => !isWarning f) = !permissionOk perm := by
  unfold permissionFindings permissionOk
  cases h : validatePermission perm with
  | error err =>
    have := isWarning_role roleName (": " ++ err)
    rw [← String.append_assoc] at this
    simp [this]
  | ok u => simp

theorem any_error_roleFindings (roleName : String) (role : Role) :
    (roleFindings roleName role).any (fun f => !isWarning f) = !roleOk roleName role := by
  have h1 : isWarning ("Role name must start with 'roles/': " ++ roleName) = false := by
    simp [isWarning, strings.HasPrefix, List.isPrefixOf]
  have h2 : isWarning ("WARNING: Role " ++ roleName ++ " has no permissions") = true := by
    simp [isWarning, strings.HasPrefix, List.isPrefixOf]
  have h3 : (role.Permissions.flatMap (permissionFindings roleName)).any
      (fun f => !isWarning f) = !role.Permissions.all permissionOk := by
    rw [List.any_flatMap]
    simp only [any_error_permissionFindings]
    induction role.Permissions with
    | nil => simp
    | cons x xs ih => simp [ih, Bool.not_and]
  unfold roleFindings roleOk
  rw [List.any_append, List.any_append, h3]
  by_cases ha : strings.HasPrefix roleName "roles/" = true <;>
    by_cases hb : role.Permissions = [] <;> simp [ha, hb, h1, h2]

theorem any_error_memberFindings (p : Policy) (projectName : String) (i : Nat)
    (member : String) :
    (memberFindings p projectName i member).any (fun f => !isWarning f) =
      !principalOk p member := by
  unfold memberFindings principalOk
  cases h : validatePrincipal member p with
  | error err => simp [isWarning_bindingPrefix]
  | ok u => simp

theorem any_error_bindingFindings (p : Policy) (projectName : String) (i : Nat)
    (b : Binding) :
    (bindingFindings p projectName i b).any (fun f => !isWarning f) = !bindingOk p b := by
  have hm : (b.Members.flatMap (memberFindings p projectName i)).any
      (fun f => !isWarning f) = !b.Members.all (principalOk p) := by
    rw [List.any_flatMap]
    simp only [any_error_memberFindings]
    induction b.Members with
    | nil => simp
    | cons x xs ih => simp [ih, Bool.not_and]
  have hund := isWarning_bindingPrefix projectName i ("undefined role " ++ b.Role)
  rw [← String.append_assoc] at hund
  have hE : b.Members.isEmpty = decide (b.Members = []) := by
    cases b.Members <;> simp
  unfold bindingFindings bindingOk
  simp only [List.any_append, hm, hE, rolePrefixFinding, undefinedRoleFinding,
    noMembersFinding, conditionFinding]
  rcases hc : b.Condition with _ | c
  · by_cases h1 : strings.HasPrefix b.Role "roles/" = true <;>
      by_cases h2 : strings.HasPrefix b.Role "roles/custom." = true <;>
      by_cases h3 : hasKey p.Roles b.Role = true <;>
      by_cases h4 : b.Members = [] <;>
      simp [h1, h2, h3, h4, hund, isWarning_bindingPrefix]
  · by_cases h5 : c.Expression = "" <;>
      by_cases h1 : strings.HasPrefix b.Role "roles/" = true <;>
      by_cases h2 : strings.HasPrefix b.Role "roles/custom." = true <;>
      by_cases h3 : hasKey p.Roles b.Role = true <;>
      by_cases h4 : b.Members = [] <;>
      simp [h1, h2, h3, h4, h5, hund, isWarning_bindingPrefix]

theorem any_error_enumFrom (p : Policy) (projectName : String) (bs : List Binding) (i : Nat) :
    ((bs.enumFrom i).flatMap (fun ib => bindingFindings p projectName ib.1 ib.2)).any
        (fun f => !isWarning f) = !bs.all (bindingOk p) := by
  induction bs generalizing i with
  | nil => simp
  | cons b bs ih =>
    simp [List.enumFrom_cons, List.any_append, ih, any_error_bindingFindings, Bool.not_and]

theorem any_error_projectFindings (p : Policy) (projectName : String) (project : Project) :
    (projectFindings p projectName project).any (fun f => !isWarning f) =
      !project.Bindings.all (bindingOk p) := by
  unfold projectFindings
  by_cases h : project.Bindings = []
  · simp [h, isWarning, strings.HasPrefix, List.isPrefixOf]
  · rw [if_neg h, List.enum, any_error_enumFrom]

theorem any_error_Validate (p : Policy) :
    (Validate p).Errors.any (fun f => !isWarning f) = !(Validate p).Valid := by
  have hr : (rolesSection p).any (fun f => !isWarning f) =
      !p.Roles.all (fun e => roleOk e.1 e.2) := by
    unfold rolesSection
    by_cases h : p.Roles = []
    · simp [h, isWarning, strings.HasPrefix, List.isPrefixOf]
    · rw [if_neg h, List.any_flatMap]
      simp only [any_error_roleFindings]
      induction p.Roles with
      | nil => simp
      | cons x xs ih => simp [ih, Bool.not_and]
  have hp : (projectsSection p).any (fun f => !isWarning f) =
      !p.Projects.all (fun e => e.2.Bindings.all (bindingOk p)) := by
    unfold projectsSection
    by_cases h : p.Projects = []
    · simp [h, isWarning, strings.HasPrefix, List.isPrefixOf]
    · rw [if_neg h, List.any_flatMap]
      simp only [any_error_projectFindings]
      generalize p.Projects = l
      induction l with
      | nil => simp
      | cons x xs ih => simp [ih, Bool.not_and]
  rw [Validate_eq]
  show (rolesSection p ++ projectsSection p).any (fun f => !isWarning f) = !policyOk p
  rw [List.any_append, hr, hp, policyOk, Bool.not_and]

/-- C14: the severity of a finding is recoverable from its text.  A finding
added by `addWarning` begins with `WARNING: `; the texts passed to `addError`
by `Validate` begin with `Role ` or with `Project `, whatever names they carry,
and so do not.  Hence `Valid` is false exactly when the report holds a finding
that does not begin with `WARNING: `, and a valid report holds warnings only. -/
theorem severity_recoverable_from_text (p : Policy) :
    ((Validate p).Valid = false ↔ ∃ f ∈ (Validate p).Errors, isWarning f = false) ∧
    ((Validate p).Valid = true → ∀ f ∈ (Validate p).Errors, isWarning f = true) ∧
    (∀ (r : ValidationResult) (msg : String),
      (r.addWarning msg).Errors = r.Errors ++ ["WARNING: " ++ msg] ∧
        isWarning ("WARNING: " ++ msg) = true) ∧
    (∀ roleName : String,
      isWarning ("Role name must start with 'roles/': " ++ roleName) = false) ∧
    (∀ roleName err : String, isWarning ("Role " ++ roleName ++ ": " ++ err) = false) ∧
    (∀ (projectName : String) (i : Nat) (rest : String),
      isWarning (bindingPrefix projectName i ++ rest) = false) := by
  have h := any_error_Validate p
  refine ⟨?_, ?_, ?_, ?_, ?_, isWarning_bindingPrefix⟩
  · constructor
    · intro hv
      rw [hv] at h
      obtain ⟨f, hf, hw⟩ := List.any_eq_true.1 h
      exact ⟨f, hf, by simpa using hw⟩
    · rintro ⟨f, hf, hw⟩
      have : (Validate p).Errors.any (fun f => !isWarning f) = true :=
        List.any_eq_true.2 ⟨f, hf, by simp [hw]⟩
      rw [h] at this
      simpa using this
  · intro hv f hf
    rw [hv] at h
    by_contra hw
    have : (Validate p).Errors.any (fun f => !isWarning f) = true :=
      List.any_eq_true.2 ⟨f, hf, by simpa using hw⟩
    rw [h] at this
    simp at this
  · intro r msg
    exact ⟨rfl, by simp [isWarning, strings.HasPrefix, List.isPrefixOf]⟩
  · intro roleName
    simp [isWarning, strings.HasPrefix, List.isPrefixOf]
  · intro roleName err
    simp [isWarning, strings.HasPrefix, List.isPrefixOf]

/-! ## Enumeration order, up to permutation -/

theorem projectFindings_congr (p q : Policy) (hr : ∀ k, hasKey p.Roles k = hasKey q.Roles k)
    (hg : ∀ k, hasKey p.Groups k = hasKey q.Groups k) :
    projectFindings p = projectFindings q := by
  funext projectName project
  simp only [projectFindings, bindingFindings_congr p q hr hg]

theorem Validate_errors_of_sameMaps (p q : Policy) (h : SameMaps p q) :
    (Validate q).Errors =
      (if q.Roles = [] then ["WARNING: No roles defined"]
        else q.Roles.flatMap (fun e => roleFindings e.1 e.2)) ++
      (if q.Projects = [] then ["WARNING: No projects defined"]
        else q.Projects.flatMap (fun e => projectFindings p e.1 e.2)) := by
  rw [Validate_eq]
  show rolesSection q ++ projectsSection q = _
  unfold rolesSection projectsSection
  rw [projectFindings_congr p q (hasKey_perm _ _ h.1) (hasKey_perm _ _ h.2.1)]

theorem Validate_errors_perm (p q : Policy) (h : SameMaps p q) :
    (Validate p).Errors.Perm (Validate q).Errors := by
  rw [Validate_errors_of_sameMaps p q h, Validate_eq]
  show (rolesSection p ++ projectsSection p).Perm _
  unfold rolesSection projectsSection
  apply List.Perm.append
  · by_cases hr : p.Roles = []
    · have hq : q.Roles = [] := by
        have := h.1; rw [hr] at this; exact (List.Perm.nil_eq this).symm
      rw [if_pos hr, if_pos hq]
    · have hq : q.Roles ≠ [] := by
        intro e; have := h.1; rw [e] at this; exact hr (List.Perm.eq_nil this)
      rw [if_neg hr, if_neg hq]
      exact List.Perm.flatMap_right _ h.1
  · by_cases hr : p.Projects = []
    · have hq : q.Projects = [] := by
        have := h.2.2; rw [hr] at this; exact (List.Perm.nil_eq this).symm
      rw [if_pos hr, if_pos hq]
    · have hq : q.Projects ≠ [] := by
        intro e; have := h.2.2; rw [e] at this; exact hr (List.Perm.eq_nil this)
      rw [if_neg hr, if_neg hq]
      exact List.Perm.flatMap_right _ h.2.2

/-- C15: for every template name, the policy `createPolicyFromTemplate` builds
is well formed and `Validate` returns `Valid = true` with no finding at all,
neither error nor warning, in whatever order the entries of its maps are
visited. -/
theorem templates_validate_cleanly (template : String) :
    Validate (cli.createPolicyFromTemplate template) = { Valid := true, Errors := [] } ∧
    (cli.createPolicyFromTemplate template).WellFormed ∧
    (∀ q : Policy, SameMaps (cli.createPolicyFromTemplate template) q →
      Validate q = { Valid := true, Errors := [] }) ∧
    (template ≠ "advanced" → template ≠ "ci" →
      cli.createPolicyFromTemplate template = cli.createPolicyFromTemplate "basic") := by
  have h1 : Validate (cli.createPolicyFromTemplate template) =
      { Valid := true, Errors := [] } := by
    unfold cli.createPolicyFromTemplate
    split_ifs <;> decide
  refine ⟨h1, ?_, ?_, ?_⟩
  · unfold cli.createPolicyFromTemplate Policy.WellFormed
    split_ifs <;> decide
  · intro q hq
    have hv : (Validate (cli.createPolicyFromTemplate template)).Valid = (Validate q).Valid := by
      rw [Validate_eq, Validate_eq]
      exact policyOk_congr _ q hq
    have he := Validate_errors_perm _ q hq
    rw [h1] at hv he
    cases hq' : Validate q with
    | mk valid errors =>
      rw [hq'] at hv he
      simp only at hv he
      rw [← hv, ← List.Perm.nil_eq he]
  · intro ha hc
    have hb : ("basic" : String) ≠ "advanced" ∧ ("basic" : String) ≠ "ci" := by decide
    unfold cli.createPolicyFromTemplate
    rw [if_neg ha, if_neg hc, if_neg hb.1, if_neg hb.2]

/-- The report does not read the Members lists of the groups: equal Roles, equal
Projects and the same group names give the same result. -/
theorem Validate_eq_of_same_group_names (p q : Policy) (hr : p.Roles = q.Roles)
    (hp : p.Projects = q.Projects)
    (hg : ∀ k : String, k ∈ p.Groups.map Prod.fst ↔ k ∈ q.Groups.map Prod.fst) :
    Validate p = Validate q := by
  apply Validate_congr p q hr hp
  intro k
  rw [Bool.eq_iff_iff, hasKey_iff, hasKey_iff]
  exact hg k

/-- C16, counterexample: the two policies hold the same Roles map, the same
Projects map and the same group name, both are well formed, and the results of
`Validate` differ, because the two roles are visited in different orders.  The
difference stays when the second policy is given the groups of the first. -/
theorem same_group_names_different_reports :
    groupTeamDevOps.WellFormed ∧ groupTeamOpsDev.WellFormed ∧
      groupTeamDevOps.Roles.Perm groupTeamOpsDev.Roles ∧
      groupTeamDevOps.Projects.Perm groupTeamOpsDev.Projects ∧
      (∀ k : String, k ∈ groupTeamDevOps.Groups.map Prod.fst ↔
        k ∈ groupTeamOpsDev.Groups.map Prod.fst) ∧
      Validate groupTeamDevOps ≠ Validate groupTeamOpsDev ∧
      Validate groupTeamDevOps ≠
        Validate { groupTeamOpsDev with Groups := groupTeamDevOps.Groups } := by
  refine ⟨?_, ?_, List.Perm.swap _ _ _, List.Perm.refl _, fun _ => Iff.rfl,
    by decide, by decide⟩
  · unfold Policy.WellFormed
    decide
  · unfold Policy.WellFormed
    decide

/-- C16, amended: group member strings are never validated.  Two policies with
the same Roles map, the same Projects map and the same set of group names get
the same `Valid` flag and the same findings up to the arrangement of the
per-role and per-project blocks, whatever the Members lists of their groups
hold; the second report is made of the blocks of the first, in the order in
which the second run visits the maps; and the two results are identical when
both runs visit the entries of Roles and of Projects in the same order. -/
theorem group_members_ignored_up_to_enumeration (p q : Policy)
    (hr : p.Roles.Perm q.Roles) (hp : p.Projects.Perm q.Projects)
    (hg : ∀ k : String, k ∈ p.Groups.map Prod.fst ↔ k ∈ q.Groups.map Prod.fst) :
    (Validate p).Valid = (Validate q).Valid ∧
    (Validate p).Errors.Perm (Validate q).Errors ∧
    (Validate q).Errors =
      (if q.Roles = [] then ["WARNING: No roles defined"]
        else q.Roles.flatMap (fun e => roleFindings e.1 e.2)) ++
      (if q.Projects = [] then ["WARNING: No projects defined"]
        else q.Projects.flatMap (fun e => projectFindings p e.1 e.2)) ∧
    (p.Roles = q.Roles → p.Projects = q.Projects → Validate p = Validate q) := by
  have hs : SameMaps p { q with Groups := p.Groups } := ⟨hr, List.Perm.refl _, hp⟩
  have hq : Validate { q with Groups := p.Groups } = Validate q :=
    Validate_eq_of_same_group_names _ q rfl rfl hg
  refine ⟨?_, ?_, ?_, fun h1 h2 => Validate_eq_of_same_group_names p q h1 h2 hg⟩
  · rw [← hq, Validate_eq, Validate_eq]
    exact policyOk_congr _ _ hs
  · rw [← hq]
    exact Validate_errors_perm _ _ hs
  · rw [← hq]
    exact Validate_errors_of_sameMaps _ _ hs

/-- C16, amended, at a group whose members are replaced by a malformed
principal, an undefined group reference and a reference to the group itself,
the maps being visited in the same order. -/
theorem group_members_ignored_up_to_enumeration_witness :
    Validate groupPolicy = Validate groupPolicyBadMembers ∧
      Validate groupPolicyBadMembers = { Valid := true, Errors := [] } :=
  ⟨(group_members_ignored_up_to_enumeration groupPolicy groupPolicyBadMembers
    (List.Perm.refl _) (List.Perm.refl _) (fun _ => Iff.rfl)).2.2.2 rfl rfl, by decide⟩

/-- C17: the outcome of `Validate` does not depend on the order in which the
Roles and Projects maps are visited, up to reordering of findings: two
enumerations of one policy get the same `Valid` flag and findings lists that
are permutations of each other; the second report is made of the same per-role
and per-project blocks as the first, arranged in the second order. -/
theorem Validate_order_independent_up_to_perm (p q : Policy) (h : SameMaps p q) :
    (Validate p).Valid = (Validate q).Valid ∧
    (Validate p).Errors.Perm (Validate q).Errors ∧
    (Validate p).Errors =
      (if p.Roles = [] then ["WARNING: No roles defined"]
        else p.Roles.flatMap (fun e => roleFindings e.1 e.2)) ++
      (if p.Projects = [] then ["WARNING: No projects defined"]
        else p.Projects.flatMap (fun e => projectFindings p e.1 e.2)) ∧
    (Validate q).Errors =
      (if q.Roles = [] then ["WARNING: No roles defined"]
        else q.Roles.flatMap (fun e => roleFindings e.1 e.2)) ++
      (if q.Projects = [] then ["WARNING: No projects defined"]
        else q.Projects.flatMap (fun e => projectFindings p e.1 e.2)) := by
  refine ⟨?_, Validate_errors_perm p q h, ?_, Validate_errors_of_sameMaps p q h⟩
  · rw [Validate_eq, Validate_eq]
    exact policyOk_congr p q h
  · rw [Validate_eq]; rfl

/-- C17, at a policy with two roles and two projects that all produce findings,
visited in the two possible orders. -/
theorem Validate_order_independent_up_to_perm_witness :
    SameMaps twoByTwo twoByTwoSwapped ∧
      (Validate twoByTwo).Valid = (Validate twoByTwoSwapped).Valid ∧
      (Validate twoByTwo).Errors.Perm (Validate twoByTwoSwapped).Errors ∧
      (Validate twoByTwo).Errors ≠ (Validate twoByTwoSwapped).Errors :=
  have h : SameMaps twoByTwo twoByTwoSwapped :=
    ⟨List.Perm.swap _ _ _, List.Perm.refl _, List.Perm.swap _ _ _⟩
  have t := Validate_order_independent_up_to_perm twoByTwo twoByTwoSwapped h
  ⟨h, t.1, t.2.1, by decide⟩

end policy
